import Mathlib

/-!
Verification of the Base16/32/58/62/64/85 codec family.

The definitions below are shallow embeddings of the C sources:
  - `src/src/tables.c`      : the six alphabet tables
  - `src/src/encod_func.c`  : `base16_encode` .. `base85_encode`
  - `src/src/decod_func.c`  : `find_index`, `base16_decode` .. `base85_decode`

Payloads are `List Nat` (byte values); encoded text is `List Char`.
C unsigned arithmetic is rendered on `Nat`: `x >> k` is `x / 2 ^ k`,
`x & (2^k - 1)` is `x % 2 ^ k`, and a `% 2 ^ 32` is inserted exactly where a
32-bit C variable can wrap.  Fallible decoders return `Except DecodeError`.
-/

namespace BaseCodec

/-- Error kinds reported by the decoders.  The C functions signal failure by
returning `NULL`; the distinct guard branches (odd/indivisible length, symbol
not found in the table, the `len == 0` early exit of `base62_decode` and
`base85_decode`) are modelled as distinct error values. -/
inductive DecodeError where
  | lengthError
  | invalidCharacterError
  | emptyInput
  deriving Repr, DecidableEq

/-- `tables.c`: `base16_table` (also the local `base16_chars` of
`base16_encode` in `encod_func.c`, which lists the same 16 symbols). -/
def base16_table : List Char :=
  ['0', '1', '2', '3', '4', '5', '6', '7', '8', '9', 'A', 'B', 'C', 'D', 'E', 'F']

/-- `tables.c`: `base32_table`. -/
def base32_table : List Char :=
  ['A', 'B', 'C', 'D', 'E', 'F', 'G', 'H', 'I', 'J', 'K', 'L', 'M',
   'N', 'O', 'P', 'Q', 'R', 'S', 'T', 'U', 'V', 'W', 'X', 'Y', 'Z',
   '2', '3', '4', '5', '6', '7']

/-- `tables.c`: `base58_table`. -/
def base58_table : List Char :=
  ['1', '2', '3', '4', '5', '6', '7', '8', '9',
   'A', 'B', 'C', 'D', 'E', 'F', 'G', 'H', 'J', 'K', 'L', 'M',
   'N', 'P', 'Q', 'R', 'S', 'T', 'U', 'V', 'W', 'X', 'Y', 'Z',
   'a', 'b', 'c', 'd', 'e', 'f', 'g', 'h', 'i', 'j', 'k', 'm',
   'n', 'o', 'p', 'q', 'r', 's', 't', 'u', 'v', 'w', 'x', 'y', 'z']

/-- `tables.c`: `base62_table`. -/
def base62_table : List Char :=
  ['0', '1', '2', '3', '4', '5', '6', '7', '8', '9',
   'A', 'B', 'C', 'D', 'E', 'F', 'G', 'H', 'I', 'J', 'K', 'L', 'M',
   'N', 'O', 'P', 'Q', 'R', 'S', 'T', 'U', 'V', 'W', 'X', 'Y', 'Z',
   'a', 'b', 'c', 'd', 'e', 'f', 'g', 'h', 'i', 'j', 'k', 'l', 'm',
   'n', 'o', 'p', 'q', 'r', 's', 't', 'u', 'v', 'w', 'x', 'y', 'z']

/-- `tables.c`: `base64_table`. -/
def base64_table : List Char :=
  ['A', 'B', 'C', 'D', 'E', 'F', 'G', 'H', 'I', 'J', 'K', 'L', 'M',
   'N', 'O', 'P', 'Q', 'R', 'S', 'T', 'U', 'V', 'W', 'X', 'Y', 'Z',
   'a', 'b', 'c', 'd', 'e', 'f', 'g', 'h', 'i', 'j', 'k', 'l', 'm',
   'n', 'o', 'p', 'q', 'r', 's', 't', 'u', 'v', 'w', 'x', 'y', 'z',
   '0', '1', '2', '3', '4', '5', '6', '7', '8', '9', '+', '/']

/-- `tables.c`: `base85_table`.  The C string literal lists the 90 consecutive
ASCII characters from `'!'` (33) up to `'z'` (122) in order — note that this is
5 characters more than the 85 used by `base85_encode` (standard Ascii85 stops
at `'u'` = 117; the table additionally contains `'v'`..`'z'`). -/
def base85_table : List Char :=
  (List.range 90).map (fun i => Char.ofNat (33 + i))

/-- `decod_func.c`: `find_index` — linear scan of a NUL-terminated table,
returning the index of the first match, or -1 (here `none`) if absent. -/
def find_index (c : Char) : List Char → Option Nat
  | [] => none
  | t :: ts => if t = c then some 0 else (find_index c ts).map (· + 1)

/-- Table lookup `table[i]` (all C indexings are in bounds; the default is
never reached). -/
def sym (table : List Char) (i : Nat) : Char := table.getD i '?'

/-! ### Generic little-endian digit accumulator

`base58_encode`, `base62_encode`, `base58_decode` and `base62_decode` all share
the same arbitrary-precision pattern: a little-endian digit buffer in some
radix, updated per input item by a carry pass over the existing digits
(`carry += mult * digit; digit = carry % radix; carry /= radix`) followed by a
`while (carry > 0)` loop appending new digits. -/

/-- The `while (carry > 0) { out[j++] = carry % radix; carry /= radix; }`
loop: little-endian digits of `c` in base `radix` (empty for `c = 0`).
The loop is rendered with structural fuel so that the kernel can evaluate it;
fuel `c` always suffices because for the radixes in use (≥ 58) the carry
strictly decreases each iteration. -/
def carryDigitsGo (radix : Nat) (c : Nat) : Nat → List Nat
  | 0 => []
  | fuel + 1 => if c = 0 then [] else c % radix :: carryDigitsGo radix (c / radix) fuel

def carryDigits (radix : Nat) (c : Nat) : List Nat := carryDigitsGo radix c c

/-- One accumulator update: the carry pass over the existing little-endian
digits followed by the append loop.  `carryMulAdd mult radix c ds` is the
digit buffer after executing
`carry = c; for k: carry += mult * ds[k]; ds[k] = carry % radix; carry /= radix;
while (carry > 0) append;` -/
def carryMulAdd (mult radix : Nat) (c : Nat) : List Nat → List Nat
  | [] => carryDigits radix c
  | d :: ds => (c + mult * d) % radix :: carryMulAdd mult radix ((c + mult * d) / radix) ds

theorem carryDigitsGo_eq_digits (radix : Nat) (h : 1 < radix) :
    ∀ fuel c, c ≤ fuel → carryDigitsGo radix c fuel = Nat.digits radix c := by
  intro fuel
  induction fuel with
  | zero =>
    intro c hc
    have : c = 0 := Nat.le_zero.mp hc
    subst this
    simp [carryDigitsGo]
  | succ fuel ih =>
    intro c hc
    rw [carryDigitsGo]
    by_cases h0 : c = 0
    · subst h0; simp
    · rw [if_neg h0, ih (c / radix)
        (by
          have := Nat.div_lt_self (Nat.pos_of_ne_zero h0) h
          omega),
        Nat.digits_def' h (Nat.pos_of_ne_zero h0)]

theorem carryDigits_eq_digits (radix c : Nat) (h : 1 < radix) :
    carryDigits radix c = Nat.digits radix c :=
  carryDigitsGo_eq_digits radix h c c (Nat.le_refl c)

theorem ofDigits_carryMulAdd (mult radix c : Nat) (ds : List Nat) (h : 1 < radix) :
    Nat.ofDigits radix (carryMulAdd mult radix c ds)
      = c + mult * Nat.ofDigits radix ds := by
  induction ds generalizing c with
  | nil =>
    simp [carryMulAdd, carryDigits_eq_digits radix c h, Nat.ofDigits_digits]
  | cons d ds ih =>
    simp only [carryMulAdd, Nat.ofDigits_cons, ih]
    have := Nat.div_add_mod (c + mult * d) radix
    ring_nf
    omega

theorem carryMulAdd_lt (mult radix c : Nat) (ds : List Nat) (h : 1 < radix) :
    ∀ d ∈ carryMulAdd mult radix c ds, d < radix := by
  induction ds generalizing c with
  | nil =>
    intro d hd
    rw [carryMulAdd, carryDigits_eq_digits radix c h] at hd
    exact Nat.digits_lt_base h hd
  | cons d ds ih =>
    intro x hx
    rcases List.mem_cons.mp hx with h1 | h2
    · subst h1; exact Nat.mod_lt _ (by omega)
    · exact ih _ x h2

/-- A little-endian digit list with no (most-significant) trailing zero. -/
def NoTrailZero (ds : List Nat) : Prop := ds.getLast? ≠ some 0

theorem noTrailZero_digits (b n : Nat) : NoTrailZero (Nat.digits b n) := by
  unfold NoTrailZero
  by_cases hn : n = 0
  · subst hn; simp
  · have hne : Nat.digits b n ≠ [] := Nat.digits_ne_nil_iff_ne_zero.mpr hn
    rw [List.getLast?_eq_getLast _ hne]
    intro hcontra
    exact Nat.getLast_digit_ne_zero b hn (by
      have := Option.some.inj hcontra
      simpa using this)

theorem noTrailZero_cons (d : Nat) (ds : List Nat) (hds : ds ≠ []) :
    NoTrailZero (d :: ds) ↔ NoTrailZero ds := by
  unfold NoTrailZero
  cases ds with
  | nil => exact absurd rfl hds
  | cons e es => rw [List.getLast?_cons_cons]

theorem carryMulAdd_noTrailZero (mult radix c : Nat) (ds : List Nat)
    (h : 1 < radix) (hm : 1 ≤ mult) (hds : NoTrailZero ds) :
    NoTrailZero (carryMulAdd mult radix c ds) := by
  induction ds generalizing c with
  | nil =>
    rw [carryMulAdd, carryDigits_eq_digits radix c h]
    exact noTrailZero_digits radix c
  | cons d ds ih =>
    rw [carryMulAdd]
    cases hds' : ds with
    | nil =>
      subst hds'
      have hd : d ≠ 0 := by
        unfold NoTrailZero at hds
        simpa using hds
      rw [carryMulAdd, carryDigits_eq_digits _ _ h]
      by_cases hc : (c + mult * d) / radix = 0
      · rw [hc]
        have hlt : c + mult * d < radix := by
          rcases Nat.lt_or_ge (c + mult * d) radix with h1 | h1
          · exact h1
          · exact absurd hc (by
              have := Nat.one_le_div_iff (by omega : 0 < radix) |>.mpr h1
              omega)
        unfold NoTrailZero
        simp only [Nat.digits_zero, List.getLast?_singleton]
        intro hcontra
        have : (c + mult * d) % radix = 0 := by simpa using hcontra
        rw [Nat.mod_eq_of_lt hlt] at this
        have : mult * d = 0 := by omega
        rcases Nat.mul_eq_zero.mp this with h2 | h2 <;> omega
      · have hne : Nat.digits radix ((c + mult * d) / radix) ≠ [] :=
          Nat.digits_ne_nil_iff_ne_zero.mpr hc
        rw [noTrailZero_cons _ _ hne]
        exact noTrailZero_digits _ _
    | cons e es =>
      subst hds'
      have hne : carryMulAdd mult radix ((c + mult * d) / radix) (e :: es) ≠ [] := by
        rw [carryMulAdd]; exact List.cons_ne_nil _ _
      rw [noTrailZero_cons _ _ hne]
      exact ih _ ((noTrailZero_cons d (e :: es) (List.cons_ne_nil _ _)).mp hds)

/-- The central accumulator lemma: starting from canonical little-endian
digits, one carry-pass step yields exactly the canonical digits of
`c + mult * value`. -/
theorem carryMulAdd_eq_digits (mult radix c : Nat) (ds : List Nat)
    (h : 1 < radix) (hm : 1 ≤ mult)
    (_hlt : ∀ d ∈ ds, d < radix) (htz : NoTrailZero ds) :
    carryMulAdd mult radix c ds
      = Nat.digits radix (c + mult * Nat.ofDigits radix ds) := by
  have hcan := Nat.digits_ofDigits radix h (carryMulAdd mult radix c ds)
    (carryMulAdd_lt mult radix c ds h)
    (by
      intro hne
      have := carryMulAdd_noTrailZero mult radix c ds h hm htz
      unfold NoTrailZero at this
      rw [List.getLast?_eq_getLast _ hne] at this
      intro hcontra
      exact this (by rw [hcontra]))
  rw [← hcan, ofDigits_carryMulAdd mult radix c ds h]

/-- Big-endian value of a byte/digit list: the C encoders process input most
significant first, each step doing `value = mult * value + item`. -/
def beVal (mult : Nat) (items : List Nat) : Nat :=
  items.foldl (fun v b => mult * v + b) 0

theorem beVal_reverse (mult : Nat) (ds : List Nat) :
    beVal mult ds.reverse = Nat.ofDigits mult ds := by
  induction ds with
  | nil => rfl
  | cons d ds ih =>
    have step : ∀ (l : List Nat) (a : Nat),
        List.foldl (fun v b => mult * v + b) a (l ++ [d])
          = mult * List.foldl (fun v b => mult * v + b) a l + d := by
      intro l a
      rw [List.foldl_append]
      rfl
    unfold beVal at ih ⊢
    rw [List.reverse_cons, step, ih, Nat.ofDigits_cons]
    ring

/-- The full accumulation loop shared by the Base58/Base62 encoders and
decoders: fold the carry-pass update over the input items. -/
def bigLoop (mult radix : Nat) (init : List Nat) (items : List Nat) : List Nat :=
  items.foldl (fun ds b => carryMulAdd mult radix b ds) init

theorem bigLoop_digits (mult radix : Nat) (h : 1 < radix) (hm : 1 ≤ mult)
    (items : List Nat) :
    ∀ n, bigLoop mult radix (Nat.digits radix n) items
        = Nat.digits radix (items.foldl (fun v b => mult * v + b) n) := by
  induction items with
  | nil => intro n; rfl
  | cons b rest ih =>
    intro n
    unfold bigLoop at ih ⊢
    rw [List.foldl_cons, List.foldl_cons,
      carryMulAdd_eq_digits mult radix b (Nat.digits radix n) h hm
        (fun d hd => Nat.digits_lt_base h hd) (noTrailZero_digits radix n),
      Nat.ofDigits_digits, Nat.add_comm b (mult * n), ih]

theorem bigLoop_nil_digits (mult radix : Nat) (h : 1 < radix) (hm : 1 ≤ mult)
    (items : List Nat) :
    bigLoop mult radix [] items = Nat.digits radix (beVal mult items) := by
  have := bigLoop_digits mult radix h hm items 0
  simpa [beVal] using this

/-! ### Zero padding

`base58_encode` starts its digit index `j` at the count of leading zero bytes
over a `calloc`ed buffer, so the digit accumulator effectively starts as a
block of `z` zero digits; `base62_decode` starts its buffer as the single
digit `[0]`.  Both are zero-padded variants of the canonical accumulator. -/

/-- `ds` padded on the (most-significant) right with zeros up to length `n`. -/
def padTo (n : Nat) (ds : List Nat) : List Nat :=
  ds ++ List.replicate (n - ds.length) 0

theorem padTo_cons (n x : Nat) (l : List Nat) :
    padTo (n + 1) (x :: l) = x :: padTo n l := by
  unfold padTo
  simp [Nat.succ_sub_succ]

theorem padTo_of_le (n : Nat) (ds : List Nat) (h : n ≤ ds.length) :
    padTo n ds = ds := by
  unfold padTo
  rw [Nat.sub_eq_zero_of_le h]
  simp

theorem carryMulAdd_length_ge (mult radix c : Nat) (ds : List Nat) :
    ds.length ≤ (carryMulAdd mult radix c ds).length := by
  induction ds generalizing c with
  | nil => simp
  | cons d ds ih =>
    rw [carryMulAdd]
    simpa using ih ((c + mult * d) / radix)

theorem carryMulAdd_replicate_zero (mult radix c k : Nat) (h : 1 < radix) :
    carryMulAdd mult radix c (List.replicate k 0)
      = padTo k (carryDigits radix c) := by
  induction k generalizing c with
  | zero =>
    rw [List.replicate_zero, carryMulAdd]
    unfold padTo
    simp
  | succ k ih =>
    rw [List.replicate_succ, carryMulAdd]
    simp only [Nat.mul_zero, Nat.add_zero]
    rw [ih (c / radix)]
    by_cases hc : c = 0
    · subst hc
      rw [carryDigits_eq_digits _ _ h]
      simp only [Nat.digits_zero, Nat.zero_mod, Nat.zero_div]
      rw [carryDigits_eq_digits _ _ h]
      simp only [Nat.digits_zero]
      unfold padTo
      simp [List.replicate_succ]
    · rw [carryDigits_eq_digits _ _ h, carryDigits_eq_digits _ _ h,
        Nat.digits_def' h (Nat.pos_of_ne_zero hc), padTo_cons]

theorem carryMulAdd_padTo (mult radix c z : Nat) (ds : List Nat) (h : 1 < radix) :
    carryMulAdd mult radix c (padTo z ds)
      = padTo z (carryMulAdd mult radix c ds) := by
  have key : ∀ (l : List Nat) (c k : Nat),
      carryMulAdd mult radix c (l ++ List.replicate k 0)
        = padTo (l.length + k) (carryMulAdd mult radix c l) := by
    intro l
    induction l with
    | nil =>
      intro c k
      simpa [carryMulAdd] using carryMulAdd_replicate_zero mult radix c k h
    | cons d l ih =>
      intro c k
      rw [List.cons_append, carryMulAdd, ih, carryMulAdd]
      simp only [List.length_cons]
      rw [Nat.succ_add, padTo_cons]
  rw [show padTo z ds = ds ++ List.replicate (z - ds.length) 0 from rfl, key]
  by_cases hz : ds.length ≤ z
  · rw [Nat.add_sub_cancel' hz]
  · rw [Nat.sub_eq_zero_of_le (by omega), Nat.add_zero,
      padTo_of_le _ _ (carryMulAdd_length_ge mult radix c ds),
      padTo_of_le _ _ (le_trans (by omega) (carryMulAdd_length_ge mult radix c ds))]

theorem bigLoop_padTo (mult radix z : Nat) (init items : List Nat) (h : 1 < radix) :
    bigLoop mult radix (padTo z init) items
      = padTo z (bigLoop mult radix init items) := by
  induction items generalizing init with
  | nil => rfl
  | cons b rest ih =>
    unfold bigLoop at ih ⊢
    rw [List.foldl_cons, List.foldl_cons, carryMulAdd_padTo mult radix b z init h, ih]

/-! ### Encoders (`encod_func.c`) -/

/-- `base16_encode`: each input byte yields `table[(b >> 4) & 0xF]` followed by
`table[b & 0xF]`. -/
def base16_encode (input : List Nat) : List Char :=
  input.flatMap (fun b => [sym base16_table (b / 2 ^ 4 % 16), sym base16_table (b % 16)])

/-- The inner `while (bit_count >= 5)` emission loop of `base32_encode`,
with structural fuel (`bit_count` itself, which strictly decreases by 5). -/
def emit32Go (val : Nat) : Nat → Nat → List Char × Nat
  | _, 0 => ([], 0)
  | bc, fuel + 1 =>
    if 5 ≤ bc then
      let r := emit32Go val (bc - 5) fuel
      (sym base32_table (val / 2 ^ (bc - 5) % 32) :: r.1, r.2)
    else ([], bc)

def emit32 (val bc : Nat) : List Char × Nat := emit32Go val bc bc

/-- The byte loop of `base32_encode`: `val = (val << 8) | (unsigned char)input[i]`
on a 32-bit unsigned `val` (the cast is the `% 2 ^ 8`; `|` on the zeroed low
byte is `+`), then the emission loop, and a final
`if (bit_count > 0) output[j++] = table[(val << (5 - bit_count)) & 0x1F]` flush. -/
def b32loop : List Nat → Nat → Nat → List Char
  | [], val, bc =>
    if 0 < bc then [sym base32_table (val * 2 ^ (5 - bc) % 32)] else []
  | b :: rest, val, bc =>
    let val' := (val * 2 ^ 8) % 2 ^ 32 + b % 2 ^ 8
    let e := emit32 val' (bc + 8)
    e.1 ++ b32loop rest val' e.2

def base32_encode (input : List Nat) : List Char := b32loop input 0 0

/-- `base58_encode`.  Faithful quirk: the digit index `j` starts at the number
`z` of leading zero bytes, over a zeroed `calloc` buffer — so the accumulator
starts as `z` zero digits — and the final symbol-writing loop writes
`output[0 .. j-1]`, overwriting the `'1'` prefix the first loop stored there.
The returned string is therefore the digit buffer (length ≥ `z`), reversed and
mapped through the table. -/
def base58_encode (input : List Nat) : List Char :=
  let z := (input.takeWhile (· == 0)).length
  (bigLoop 256 58 (List.replicate z 0) (input.drop z)).reverse.map (sym base58_table)

/-- `base62_encode`: plain big-integer conversion, accumulator starts empty
(`j = 0`); leading zero bytes are no-ops of the accumulator. -/
def base62_encode (input : List Nat) : List Char :=
  (bigLoop 256 62 [] input).reverse.map (sym base62_table)

/-- `base64_encode`: 3-byte groups; `val = (b0 << 16) | (b1 << 8) | b2` with
absent bytes read as 0 (`|` on disjoint byte lanes is `+`; `uint32_t val`
cannot wrap for byte-valued input), absent bytes also turn the 3rd/4th
symbol into `'='`. -/
def base64_encode : List Nat → List Char
  | [] => []
  | [b0] =>
    let val := b0 * 2 ^ 16
    [sym base64_table (val / 2 ^ 18 % 64), sym base64_table (val / 2 ^ 12 % 64), '=', '=']
  | [b0, b1] =>
    let val := b0 * 2 ^ 16 + b1 * 2 ^ 8
    [sym base64_table (val / 2 ^ 18 % 64), sym base64_table (val / 2 ^ 12 % 64),
     sym base64_table (val / 2 ^ 6 % 64), '=']
  | b0 :: b1 :: b2 :: rest =>
    let val := b0 * 2 ^ 16 + b1 * 2 ^ 8 + b2
    sym base64_table (val / 2 ^ 18 % 64) :: sym base64_table (val / 2 ^ 12 % 64) ::
    sym base64_table (val / 2 ^ 6 % 64) :: sym base64_table (val % 64) ::
    base64_encode rest

/-- One 5-symbol block of `base85_encode`: `block[j] = table[value % 85];
value /= 85` for `j = 4 .. 0`. -/
def base85_block (value : Nat) : List Char :=
  [sym base85_table (value / 85 ^ 4 % 85), sym base85_table (value / 85 ^ 3 % 85),
   sym base85_table (value / 85 ^ 2 % 85), sym base85_table (value / 85 % 85),
   sym base85_table (value % 85)]

/-- `base85_encode`: 4-byte blocks packed big-endian into a 32-bit value (the
final short block is left-shifted, i.e. zero-padded on the right), 5 symbols
per block. -/
def base85_encode : List Nat → List Char
  | [] => []
  | [b0] => base85_block (b0 * 2 ^ 24)
  | [b0, b1] => base85_block (b0 * 2 ^ 24 + b1 * 2 ^ 16)
  | [b0, b1, b2] => base85_block (b0 * 2 ^ 24 + b1 * 2 ^ 16 + b2 * 2 ^ 8)
  | b0 :: b1 :: b2 :: b3 :: rest =>
    base85_block (b0 * 2 ^ 24 + b1 * 2 ^ 16 + b2 * 2 ^ 8 + b3) ++ base85_encode rest

/-! ### Decoders (`decod_func.c`) -/

/-- The pair loop of `base16_decode`: two symbols per output byte,
`(high_nibble << 4) | low_nibble` (disjoint nibbles, so `|` is `+`), failing
if either lookup returns -1.  The one-element case is unreachable because the
caller has already checked parity. -/
def b16pairs : List Char → Except DecodeError (List Nat)
  | [] => .ok []
  | [_] => .error .lengthError
  | c0 :: c1 :: rest =>
    match find_index c0 base16_table, find_index c1 base16_table with
    | some hi, some lo => (b16pairs rest).map (fun bs => (hi * 2 ^ 4 + lo) :: bs)
    | _, _ => .error .invalidCharacterError

/-- `base16_decode`: fails on odd input length, then decodes pairs. -/
def base16_decode (input : List Char) : Except DecodeError (List Nat) :=
  if input.length % 2 ≠ 0 then .error .lengthError
  else b16pairs input

/-- The `while (padded_len % n != 0) padded_len++` plus `memset(.., '=', ..)`
step of `base32_decode` / `base64_decode`: right-pad with `'='` to the next
multiple of `n`. -/
def padInput (n : Nat) (s : List Char) : List Char :=
  s ++ List.replicate ((n - s.length % n) % n) '='

/-- Symbol lookup during Base32 decode: `'='` counts as index 0, anything else
is looked up with `find_index`, failing when absent. -/
def b32idx (c : Char) : Except DecodeError Nat :=
  if c = '=' then .ok 0
  else match find_index c base32_table with
    | some i => .ok i
    | none => .error .invalidCharacterError

/-- One 8-symbol group of `base32_decode`: all 8 indices are looked up, the
40-bit `value` is assembled from disjoint 5-bit lanes
(`value |= indices[j] << (35 - j*5)`, so `|` is `+`), the first byte is
emitted unconditionally and bytes 2-5 are emitted unless the symbol at
intra-group offset 2 / 4 / 5 / 6 is the pad. -/
def b32group (c0 c1 c2 c3 c4 c5 c6 c7 : Char) : Except DecodeError (List Nat) := do
  let i0 ← b32idx c0
  let i1 ← b32idx c1
  let i2 ← b32idx c2
  let i3 ← b32idx c3
  let i4 ← b32idx c4
  let i5 ← b32idx c5
  let i6 ← b32idx c6
  let i7 ← b32idx c7
  let value := i0 * 2 ^ 35 + i1 * 2 ^ 30 + i2 * 2 ^ 25 + i3 * 2 ^ 20
    + i4 * 2 ^ 15 + i5 * 2 ^ 10 + i6 * 2 ^ 5 + i7
  .ok ([value / 2 ^ 32 % 256]
    ++ (if c2 ≠ '=' then [value / 2 ^ 24 % 256] else [])
    ++ (if c4 ≠ '=' then [value / 2 ^ 16 % 256] else [])
    ++ (if c5 ≠ '=' then [value / 2 ^ 8 % 256] else [])
    ++ (if c6 ≠ '=' then [value % 256] else []))

/-- The group loop of `base32_decode`.  The catch-all is unreachable: the
input was padded to a multiple of 8 symbols. -/
def b32groups : List Char → Except DecodeError (List Nat)
  | c0 :: c1 :: c2 :: c3 :: c4 :: c5 :: c6 :: c7 :: rest => do
    let g ← b32group c0 c1 c2 c3 c4 c5 c6 c7
    let r ← b32groups rest
    .ok (g ++ r)
  | _ => .ok []

def base32_decode (input : List Char) : Except DecodeError (List Nat) :=
  b32groups (padInput 8 input)

/-- Symbol lookup during Base64 decode (same shape as `b32idx`). -/
def b64idx (c : Char) : Except DecodeError Nat :=
  if c = '=' then .ok 0
  else match find_index c base64_table with
    | some i => .ok i
    | none => .error .invalidCharacterError

/-- One 4-symbol group of `base64_decode`: 24-bit `value` from disjoint 6-bit
lanes, first byte unconditional, bytes 2-3 suppressed by a pad at intra-group
offset 2 / 3. -/
def b64group (c0 c1 c2 c3 : Char) : Except DecodeError (List Nat) := do
  let i0 ← b64idx c0
  let i1 ← b64idx c1
  let i2 ← b64idx c2
  let i3 ← b64idx c3
  let value := i0 * 2 ^ 18 + i1 * 2 ^ 12 + i2 * 2 ^ 6 + i3
  .ok ([value / 2 ^ 16 % 256]
    ++ (if c2 ≠ '=' then [value / 2 ^ 8 % 256] else [])
    ++ (if c3 ≠ '=' then [value % 256] else []))

/-- The group loop of `base64_decode` (catch-all unreachable after padding). -/
def b64groups : List Char → Except DecodeError (List Nat)
  | c0 :: c1 :: c2 :: c3 :: rest => do
    let g ← b64group c0 c1 c2 c3
    let r ← b64groups rest
    .ok (g ++ r)
  | _ => .ok []

def base64_decode (input : List Char) : Except DecodeError (List Nat) :=
  b64groups (padInput 4 input)

/-- The arithmetic loop of `base58_decode`: per symbol, look up its index and
run the base-256 carry pass (`carry += output[j] * 58` etc.). -/
def go58 : List Char → List Nat → Except DecodeError (List Nat)
  | [], ds => .ok ds
  | c :: rest, ds =>
    match find_index c base58_table with
    | none => .error .invalidCharacterError
    | some d => go58 rest (carryMulAdd 58 256 d ds)

/-- `base58_decode`: count leading `'1'` (= `base58_table[0]`) symbols, run
the accumulator over the remaining symbols, then — faithful to the C — insert
`zero_count` zero bytes at the *front of the little-endian buffer* and reverse
the whole buffer, which lands those zeros at the *end* of the returned
payload. -/
def base58_decode (input : List Char) : Except DecodeError (List Nat) :=
  let zc := (input.takeWhile (· == sym base58_table 0)).length
  (go58 (input.drop zc) []).map (fun ds => (List.replicate zc 0 ++ ds).reverse)

/-- `base62_decode`: empty input is rejected up front; a validation pass
rejects any symbol outside the table; then the little-endian base-256 buffer,
which starts as the single digit `[0]`, is multiplied by 62 (first carry pass)
and incremented by the digit (second carry pass; the C's early `break` once
the carry is 0 is equivalent because every stored digit is an
`unsigned char` < 256) per input symbol, and finally reversed. -/
def base62_decode (input : List Char) : Except DecodeError (List Nat) :=
  if input.length = 0 then .error .emptyInput
  else if input.any (fun c => find_index c base62_table = none) then
    .error .invalidCharacterError
  else
    .ok ((input.foldl
      (fun ds c => carryMulAdd 1 256 ((find_index c base62_table).getD 0)
        (carryMulAdd 62 256 0 ds)) [0]).reverse)

/-- `strchr(base85_table, c)`: the terminating NUL of the C string is part of
the searched string, so a NUL byte is found *at index 90* (the table length)
instead of being rejected. -/
def base85_strchr (c : Char) : Option Nat :=
  if c = Char.ofNat 0 then some base85_table.length
  else find_index c base85_table

/-- Whitespace stripped by `base85_decode` before processing. -/
def isWS (c : Char) : Bool := c = ' ' || c = '\n' || c = '\r' || c = '\t'

/-- The block loop of `base85_decode`: per 5-symbol block,
`value = value * 85 + digit` for each symbol (failing when `strchr` misses),
then 4 big-endian bytes of the 32-bit value.  Catch-all unreachable: the
cleaned length is a multiple of 5. -/
def b85blocks : List Char → Except DecodeError (List Nat)
  | c0 :: c1 :: c2 :: c3 :: c4 :: rest => do
    let v ← [c0, c1, c2, c3, c4].foldlM (fun v c =>
      match base85_strchr c with
      | none => Except.error DecodeError.invalidCharacterError
      | some d => Except.ok (v * 85 + d)) 0
    let r ← b85blocks rest
    .ok ([v / 2 ^ 24 % 256, v / 2 ^ 16 % 256, v / 2 ^ 8 % 256, v % 256] ++ r)
  | _ => .ok []

/-- `base85_decode`: reject empty input, strip whitespace, require the cleaned
length to be a multiple of 5, then decode blocks. -/
def base85_decode (input : List Char) : Except DecodeError (List Nat) :=
  if input.length = 0 then .error .emptyInput
  else
    let cleaned := input.filter (fun c => !(isWS c))
    if cleaned.length % 5 ≠ 0 then .error .lengthError
    else b85blocks cleaned

example : base16_decode ['A', 'B', 'C', 'D'] = .ok [0xAB, 0xCD] := rfl
example : base16_decode ['A', 'B', 'C'] = .error .lengthError := rfl
example : base16_decode ['a', 'b'] = .error .invalidCharacterError := rfl
example : base32_decode ['J', 'B', 'S', 'W', 'Y', '3', 'D', 'P']
    = .ok [72, 101, 108, 108, 111] := rfl
example : base32_decode (base32_encode [72, 101, 108, 108])
    = .ok [72, 101, 108, 108, 0] := rfl
example : base64_decode ['T', 'W', 'F', 'u'] = .ok [77, 97, 110] := rfl
example : base58_decode ['1'] = .ok [0] := rfl
example : base58_decode ['1', '2'] = .ok [1, 0] := rfl
example : base62_decode [] = .error .emptyInput := rfl
example : base62_decode ['0'] = .ok [0] := rfl
example : base85_decode ['!', '!', '!', '!', '!'] = .ok [0, 0, 0, 0] := rfl
example : base85_decode [] = .error .emptyInput := rfl
example : base85_decode (base85_encode [1]) = .ok [1, 0, 0, 0] := rfl

/-! ### Table lookup facts (finite, by `decide`) -/

theorem find16_sym : ∀ i < 16, find_index (sym base16_table i) base16_table = some i := by
  decide

theorem find32_sym : ∀ i < 32, find_index (sym base32_table i) base32_table = some i := by
  decide

theorem find58_sym : ∀ i < 58, find_index (sym base58_table i) base58_table = some i := by
  decide

theorem find62_sym : ∀ i < 62, find_index (sym base62_table i) base62_table = some i := by
  decide

theorem find64_sym : ∀ i < 64, find_index (sym base64_table i) base64_table = some i := by
  decide

theorem find85_sym : ∀ i < 85, find_index (sym base85_table i) base85_table = some i := by
  decide

theorem sym32_ne_pad : ∀ i < 32, sym base32_table i ≠ '=' := by decide

theorem sym64_ne_pad : ∀ i < 64, sym base64_table i ≠ '=' := by decide

theorem sym58_ne_one : ∀ i < 58, i ≠ 0 → sym base58_table i ≠ '1' := by decide

theorem sym85_not_ws : ∀ i < 85, isWS (sym base85_table i) = false := by decide

theorem sym85_ne_nul : ∀ i < 85, sym base85_table i ≠ Char.ofNat 0 := by decide

/-! ### Claim C2 — Base58 leading-zero prefix -/

/-- Helper for C9/C2: a leading zero byte leaves the empty Base62/Base58-style
accumulator unchanged. -/
theorem bigLoop_cons_zero (mult radix : Nat) (items : List Nat) :
    bigLoop mult radix [] (0 :: items) = bigLoop mult radix [] items := rfl

/-- C2 (code bug): `base58_encode` is claimed to emit one `'1'` per leading
zero byte as a prefix before the big-integer digits.  The code instead starts
the digit count `j` at the zero count and later overwrites the `'1'` prefix
with the digit symbols, so `encode([0x00,0x00,0x01])` is `"12"`, not
`"11" + encode([0x01]) = "112"`.  (The single-zero vector `"1"` does hold, and
the code also contradicts its own doc comment, which promises `'1'`-encoding
of leading zeros.)  This theorem evaluates the code at the failing input. -/
theorem base58_encode_leading_zero_bug :
    base58_encode [0] = ['1']
    ∧ base58_encode [0, 0, 1] = ['1', '2']
    ∧ base58_encode [1] = ['2']
    ∧ base58_encode [0, 0, 1] ≠ ['1', '1'] ++ base58_encode [1] := by
  refine ⟨rfl, rfl, rfl, ?_⟩
  intro h
  have h2 : (['1', '2'] : List Char) = ['1', '1', '2'] := h
  exact absurd h2 (by decide)

/-! ### Claim C9 — Base62 discards leading zeros -/

/-- C9: `base62_encode` discards leading zero bytes: the encoding of any
payload equals the encoding of the payload with all leading `0x00` bytes
removed; in particular an all-zero payload such as `[0x00]` encodes to the
empty string, so Base62 does not preserve payload length. -/
theorem base62_encode_drops_leading_zeros :
    (∀ input : List Nat,
      base62_encode input = base62_encode (input.dropWhile (fun b => b == 0)))
    ∧ base62_encode [0] = [] := by
  constructor
  · intro input
    induction input with
    | nil => rfl
    | cons b rest ih =>
      by_cases hb : b = 0
      · subst hb
        rw [List.dropWhile_cons_of_pos (by decide)]
        calc base62_encode (0 :: rest) = base62_encode rest := by
              unfold base62_encode
              rw [bigLoop_cons_zero]
          _ = base62_encode (rest.dropWhile (fun b => b == 0)) := ih
      · rw [List.dropWhile_cons_of_neg (by simpa using hb)]
  · rfl

/-! ### Claim C4 — zero-length behaviour -/

/-- C4 counterexample: the claim says `decode(F, "") == ""` (success) for
every format, but `base62_decode` rejects the empty input outright. -/
theorem base62_decode_empty_fails :
    base62_decode [] = .error .emptyInput ∧ base62_decode [] ≠ .ok [] := by
  exact ⟨rfl, by simp [show base62_decode [] = .error .emptyInput from rfl]⟩

/-- C4 (amended): the empty payload encodes to the empty text under all six
formats, and the empty text decodes to the empty payload for Base16, Base32,
Base58 and Base64; `base62_decode` and `base85_decode` instead fail on empty
input (their `len == 0` guard returns `NULL`). -/
theorem zero_length_behaviour :
    base16_encode [] = []
    ∧ base32_encode [] = []
    ∧ base58_encode [] = []
    ∧ base62_encode [] = []
    ∧ base64_encode [] = []
    ∧ base85_encode [] = []
    ∧ base16_decode [] = .ok []
    ∧ base32_decode [] = .ok []
    ∧ base58_decode [] = .ok []
    ∧ base64_decode [] = .ok []
    ∧ base62_decode [] = .error .emptyInput
    ∧ base85_decode [] = .error .emptyInput :=
  ⟨rfl, rfl, rfl, rfl, rfl, rfl, rfl, rfl, rfl, rfl, rfl, rfl⟩


/-! ### Claim C6 — Base64 encode shape -/

theorem sym64_mod_ne_pad (x : Nat) : sym base64_table (x % 64) ≠ '=' :=
  sym64_ne_pad _ (Nat.mod_lt x (by decide))

/-- C6: `base64_encode` consumes the payload 6 bits at a time, so the output
always has length `4 * ceil(n/3)`; a final group short by one byte ends in
exactly one `'='`, short by two bytes in exactly two `'='`, and a payload of
length divisible by 3 produces no `'='` at all; the known vector
`encode("Man") = "TWFu"` holds. -/
theorem base64_encode_shape :
    (∀ input : List Nat,
      (base64_encode input).length = 4 * ((input.length + 2) / 3))
    ∧ (∀ input : List Nat, input.length % 3 = 2 →
        ∃ pre, base64_encode input = pre ++ ['='] ∧ '=' ∉ pre)
    ∧ (∀ input : List Nat, input.length % 3 = 1 →
        ∃ pre, base64_encode input = pre ++ ['=', '='] ∧ '=' ∉ pre)
    ∧ (∀ input : List Nat, input.length % 3 = 0 → '=' ∉ base64_encode input)
    ∧ base64_encode [77, 97, 110] = ['T', 'W', 'F', 'u'] := by
  refine ⟨?_, ?_, ?_, ?_, by decide⟩
  · intro input
    induction input using base64_encode.induct with
    | case1 => simp [base64_encode]
    | case2 b0 => simp [base64_encode]
    | case3 b0 b1 => simp [base64_encode]
    | case4 b0 b1 b2 rest ih =>
      simp only [base64_encode, List.length_cons] at ih ⊢
      omega
  · intro input
    induction input using base64_encode.induct with
    | case1 => intro h; simp at h
    | case2 b0 => intro h; simp at h
    | case3 b0 b1 =>
      intro _
      simp only [base64_encode]
      refine ⟨[sym base64_table ((b0 * 2 ^ 16 + b1 * 2 ^ 8) / 2 ^ 18 % 64),
        sym base64_table ((b0 * 2 ^ 16 + b1 * 2 ^ 8) / 2 ^ 12 % 64),
        sym base64_table ((b0 * 2 ^ 16 + b1 * 2 ^ 8) / 2 ^ 6 % 64)], by simp, ?_⟩
      simp only [List.mem_cons, List.not_mem_nil, or_false]
      push_neg
      exact ⟨(sym64_mod_ne_pad _).symm, (sym64_mod_ne_pad _).symm, (sym64_mod_ne_pad _).symm⟩
    | case4 b0 b1 b2 rest ih =>
      intro h
      have hr : rest.length % 3 = 2 := by
        simp only [List.length_cons] at h
        omega
      obtain ⟨pre, hpre, hmem⟩ := ih hr
      simp only [base64_encode]
      refine ⟨sym base64_table ((b0 * 2 ^ 16 + b1 * 2 ^ 8 + b2) / 2 ^ 18 % 64) ::
        sym base64_table ((b0 * 2 ^ 16 + b1 * 2 ^ 8 + b2) / 2 ^ 12 % 64) ::
        sym base64_table ((b0 * 2 ^ 16 + b1 * 2 ^ 8 + b2) / 2 ^ 6 % 64) ::
        sym base64_table ((b0 * 2 ^ 16 + b1 * 2 ^ 8 + b2) % 64) :: pre, by rw [hpre]; simp, ?_⟩
      simp only [List.mem_cons]
      push_neg
      have h4 : sym base64_table ((b0 * 2 ^ 16 + b1 * 2 ^ 8 + b2) % 64) ≠ '=' :=
        sym64_mod_ne_pad _
      exact ⟨(sym64_mod_ne_pad _).symm, (sym64_mod_ne_pad _).symm,
        (sym64_mod_ne_pad _).symm, fun hc => h4 hc.symm, fun hc => hmem hc⟩
  · intro input
    induction input using base64_encode.induct with
    | case1 => intro h; simp at h
    | case2 b0 =>
      intro _
      simp only [base64_encode]
      refine ⟨[sym base64_table (b0 * 2 ^ 16 / 2 ^ 18 % 64),
        sym base64_table (b0 * 2 ^ 16 / 2 ^ 12 % 64)], by simp, ?_⟩
      simp only [List.mem_cons, List.not_mem_nil, or_false]
      push_neg
      exact ⟨(sym64_mod_ne_pad _).symm, (sym64_mod_ne_pad _).symm⟩
    | case3 b0 b1 => intro h; simp at h
    | case4 b0 b1 b2 rest ih =>
      intro h
      have hr : rest.length % 3 = 1 := by
        simp only [List.length_cons] at h
        omega
      obtain ⟨pre, hpre, hmem⟩ := ih hr
      simp only [base64_encode]
      refine ⟨sym base64_table ((b0 * 2 ^ 16 + b1 * 2 ^ 8 + b2) / 2 ^ 18 % 64) ::
        sym base64_table ((b0 * 2 ^ 16 + b1 * 2 ^ 8 + b2) / 2 ^ 12 % 64) ::
        sym base64_table ((b0 * 2 ^ 16 + b1 * 2 ^ 8 + b2) / 2 ^ 6 % 64) ::
        sym base64_table ((b0 * 2 ^ 16 + b1 * 2 ^ 8 + b2) % 64) :: pre, by rw [hpre]; simp, ?_⟩
      simp only [List.mem_cons]
      push_neg
      have h4 : sym base64_table ((b0 * 2 ^ 16 + b1 * 2 ^ 8 + b2) % 64) ≠ '=' :=
        sym64_mod_ne_pad _
      exact ⟨(sym64_mod_ne_pad _).symm, (sym64_mod_ne_pad _).symm,
        (sym64_mod_ne_pad _).symm, fun hc => h4 hc.symm, fun hc => hmem hc⟩
  · intro input
    induction input using base64_encode.induct with
    | case1 => intro _; simp [base64_encode]
    | case2 b0 => intro h; simp at h
    | case3 b0 b1 => intro h; simp at h
    | case4 b0 b1 b2 rest ih =>
      intro h
      have hr : rest.length % 3 = 0 := by
        simp only [List.length_cons] at h
        omega
      intro hc
      simp only [base64_encode, List.mem_cons] at hc
      rcases hc with h1 | h1 | h1 | h1 | h1
      · exact sym64_mod_ne_pad _ h1.symm
      · exact sym64_mod_ne_pad _ h1.symm
      · exact sym64_mod_ne_pad _ h1.symm
      · exact sym64_mod_ne_pad _ h1.symm
      · exact ih hr h1

/-! ### Claim C7 — Base32 encode shape -/

theorem emit32Go_spec (val : Nat) : ∀ fuel bc, bc ≤ fuel →
    (emit32Go val bc fuel).1.length = bc / 5 ∧ (emit32Go val bc fuel).2 = bc % 5 := by
  intro fuel
  induction fuel with
  | zero =>
    intro bc hbc
    have : bc = 0 := by omega
    subst this
    exact ⟨rfl, rfl⟩
  | succ fuel ih =>
    intro bc hbc
    by_cases h5 : 5 ≤ bc
    · obtain ⟨h1, h2⟩ := ih (bc - 5) (by omega)
      simp only [emit32Go, if_pos h5, List.length_cons]
      exact ⟨by rw [h1]; omega, by rw [h2]; omega⟩
    · simp only [emit32Go, if_neg h5]
      refine ⟨?_, ?_⟩
      · show ([] : List Char).length = bc / 5
        simp only [List.length_nil]
        omega
      · show bc = bc % 5
        omega

theorem b32loop_length : ∀ (input : List Nat) (val bc : Nat), bc < 5 →
    (b32loop input val bc).length = (8 * input.length + bc + 4) / 5 := by
  intro input
  induction input with
  | nil =>
    intro val bc hbc
    by_cases h : 0 < bc
    · simp only [b32loop, if_pos h, List.length_cons, List.length_nil, List.length_singleton]
      omega
    · simp only [b32loop, if_neg h, List.length_nil]
      omega
  | cons b rest ih =>
    intro val bc hbc
    simp only [b32loop, List.length_append, List.length_cons]
    obtain ⟨h1, h2⟩ := emit32Go_spec ((val * 2 ^ 8) % 2 ^ 32 + b % 2 ^ 8) (bc + 8) (bc + 8)
      (Nat.le_refl _)
    rw [show emit32 ((val * 2 ^ 8) % 2 ^ 32 + b % 2 ^ 8) (bc + 8)
        = emit32Go ((val * 2 ^ 8) % 2 ^ 32 + b % 2 ^ 8) (bc + 8) (bc + 8) from rfl] at *
    rw [h1, h2, ih _ ((bc + 8) % 5) (by omega)]
    omega

theorem sym32_lt_mem : ∀ i < 32, sym base32_table i ∈ base32_table := by decide

theorem emit32Go_mem (val : Nat) :
    ∀ fuel bc c, c ∈ (emit32Go val bc fuel).1 → c ∈ base32_table := by
  intro fuel
  induction fuel with
  | zero => intro bc c hc; simp [emit32Go] at hc
  | succ fuel ih =>
    intro bc c hc
    by_cases h5 : 5 ≤ bc
    · simp only [emit32Go, if_pos h5, List.mem_cons] at hc
      rcases hc with h | h
      · subst h; exact sym32_lt_mem _ (Nat.mod_lt _ (by decide))
      · exact ih _ c h
    · simp [emit32Go, if_neg h5] at hc

theorem b32loop_mem :
    ∀ (input : List Nat) (val bc : Nat) (c : Char),
      c ∈ b32loop input val bc → c ∈ base32_table := by
  intro input
  induction input with
  | nil =>
    intro val bc c hc
    by_cases h : 0 < bc
    · simp only [b32loop, if_pos h, List.mem_singleton] at hc
      subst hc
      exact sym32_lt_mem _ (Nat.mod_lt _ (by decide))
    · simp [b32loop, if_neg h] at hc
  | cons b rest ih =>
    intro val bc c hc
    simp only [b32loop, List.mem_append] at hc
    rcases hc with h | h
    · exact emit32Go_mem _ _ _ c h
    · exact ih _ _ c h

/-- C7: `base32_encode` packs the payload into 5-bit groups MSB-first across
byte boundaries (a short final group is left-shifted and zero-filled), so the
output length is `ceil(8n/5)` and every output character is an alphabet
symbol — in particular the output contains no pad symbol `'='`, which is not
in the Base32 alphabet; the known vector `encode("Hello") = "JBSWY3DP"`
holds. -/
theorem base32_encode_shape :
    (∀ input : List Nat, (base32_encode input).length = (8 * input.length + 4) / 5)
    ∧ (∀ (input : List Nat) (c : Char), c ∈ base32_encode input → c ∈ base32_table)
    ∧ '=' ∉ base32_table
    ∧ base32_encode [72, 101, 108, 108, 111] = ['J', 'B', 'S', 'W', 'Y', '3', 'D', 'P'] := by
  refine ⟨?_, ?_, by decide, by decide⟩
  · intro input
    have := b32loop_length input 0 0 (by decide)
    simpa [base32_encode] using this
  · intro input c hc
    exact b32loop_mem input 0 0 c hc

/-- C7 witness: the hypothesised parts of `base32_encode_shape` at a concrete
input. -/
theorem base32_encode_shape_witness :
    'J' ∈ base32_table :=
  base32_encode_shape.2.1 [72, 101, 108, 108, 111] 'J' (by decide)

/-! ### Claim C3 — Base16 decode -/

theorem b16pairs_invalid : ∀ input : List Char, input.length % 2 = 0 →
    (∃ c ∈ input, find_index c base16_table = none) →
    b16pairs input = .error .invalidCharacterError := by
  intro input
  induction input using b16pairs.induct with
  | case1 =>
    intro _ h
    simp at h
  | case2 c =>
    intro h _
    simp at h
  | case3 c0 c1 rest hi lo hc1 hc0 ih =>
    intro hlen hex
    have hrest : b16pairs rest = .error .invalidCharacterError := by
      apply ih
      · simp only [List.length_cons] at hlen
        omega
      · obtain ⟨c, hc, hfind⟩ := hex
        rcases List.mem_cons.mp hc with rfl | hmem
        · rw [hc0] at hfind; exact absurd hfind (by simp)
        · rcases List.mem_cons.mp hmem with rfl | hmem2
          · rw [hc1] at hfind; exact absurd hfind (by simp)
          · exact ⟨c, hmem2, hfind⟩
    simp [b16pairs, hc0, hc1, hrest, Except.map]
  | case4 c0 c1 rest hmatch =>
    intro _ _
    rcases hhi : find_index c0 base16_table with _ | hi
    · simp [b16pairs, hhi]
    · rcases hlo : find_index c1 base16_table with _ | lo
      · simp [b16pairs, hhi, hlo]
      · exact (hmatch hi lo hhi hlo).elim

theorem b16pairs_valid : ∀ input : List Char, input.length % 2 = 0 →
    (∀ c ∈ input, find_index c base16_table ≠ none) →
    ∃ bs, b16pairs input = .ok bs ∧ bs.length = input.length / 2
      ∧ ∀ k, 2 * k + 1 < input.length →
          bs.getD k 0
            = (find_index (input.getD (2 * k) ' ') base16_table).getD 0 * 2 ^ 4
              + (find_index (input.getD (2 * k + 1) ' ') base16_table).getD 0 := by
  intro input
  induction input using b16pairs.induct with
  | case1 =>
    intro _ _
    exact ⟨[], rfl, rfl, fun k hk => by simp at hk⟩
  | case2 c =>
    intro h _
    simp at h
  | case3 c0 c1 rest hi lo hc1 hc0 ih =>
    intro hlen hval
    obtain ⟨bs, hbs, hlenbs, hidx⟩ := ih
      (by simp only [List.length_cons] at hlen; omega)
      (fun c hc => hval c (List.mem_cons_of_mem _ (List.mem_cons_of_mem _ hc)))
    refine ⟨(hi * 16 + lo) :: bs, ?_, ?_, ?_⟩
    · simp [b16pairs, hc0, hc1, hbs, Except.map]
    · simp only [List.length_cons, hlenbs]
      omega
    · intro k hk
      cases k with
      | zero =>
        simp [hc0, hc1]
      | succ k =>
        have h2 : 2 * (k + 1) = (2 * k + 1) + 1 := by omega
        have h3 : 2 * (k + 1) + 1 = (2 * k + 1 + 1) + 1 := by omega
        rw [h3, h2]
        simp only [List.getD_cons_succ]
        apply hidx
        simp only [List.length_cons] at hk
        omega
  | case4 c0 c1 rest hmatch =>
    intro _ hval
    rcases hhi : find_index c0 base16_table with _ | hi
    · exact absurd hhi (hval c0 (List.mem_cons_self _ _))
    · rcases hlo : find_index c1 base16_table with _ | lo
      · exact absurd hlo (hval c1 (List.mem_cons_of_mem _ (List.mem_cons_self _ _)))
      · exact (hmatch hi lo hhi hlo).elim

/-- C3: `base16_decode` fails with `LengthError` on every odd-length input;
on even-length input it fails with `InvalidCharacterError` whenever some
character is not in the fixed upper-case table (so lowercase hex such as
`"ab"` is rejected); otherwise it succeeds, each symbol pair becoming the
byte `(high << 4) | low`, for exactly `len/2` output bytes. -/
theorem base16_decode_spec :
    (∀ input : List Char, input.length % 2 = 1 →
        base16_decode input = .error .lengthError)
    ∧ (∀ input : List Char, input.length % 2 = 0 →
        (∃ c ∈ input, find_index c base16_table = none) →
        base16_decode input = .error .invalidCharacterError)
    ∧ (∀ input : List Char, input.length % 2 = 0 →
        (∀ c ∈ input, find_index c base16_table ≠ none) →
        ∃ bs, base16_decode input = .ok bs ∧ bs.length = input.length / 2
          ∧ ∀ k, 2 * k + 1 < input.length →
              bs.getD k 0
                = (find_index (input.getD (2 * k) ' ') base16_table).getD 0 * 2 ^ 4
                  + (find_index (input.getD (2 * k + 1) ' ') base16_table).getD 0)
    ∧ base16_decode ['a', 'b'] = .error .invalidCharacterError := by
  refine ⟨?_, ?_, ?_, rfl⟩
  · intro input h
    unfold base16_decode
    rw [if_pos (by omega)]
  · intro input h hex
    unfold base16_decode
    rw [if_neg (by omega)]
    exact b16pairs_invalid input h hex
  · intro input h hval
    unfold base16_decode
    rw [if_neg (by omega)]
    exact b16pairs_valid input h hval

/-- C3 witness: concrete instances discharging each hypothesis of
`base16_decode_spec`. -/
theorem base16_decode_spec_witness :
    base16_decode ['A', 'B', 'C'] = .error .lengthError
    ∧ base16_decode ['4', '1', 'z', 'z'] = .error .invalidCharacterError
    ∧ ∃ bs, base16_decode ['A', 'B'] = .ok bs ∧ bs.length = 1
        ∧ ∀ k, 2 * k + 1 < 2 →
            bs.getD k 0
              = (find_index ((['A', 'B'] : List Char).getD (2 * k) ' ') base16_table).getD 0 * 2 ^ 4
                + (find_index ((['A', 'B'] : List Char).getD (2 * k + 1) ' ') base16_table).getD 0 :=
  ⟨base16_decode_spec.1 ['A', 'B', 'C'] (by decide),
   base16_decode_spec.2.1 ['4', '1', 'z', 'z'] (by decide) ⟨'z', by decide, by decide⟩,
   base16_decode_spec.2.2.1 ['A', 'B'] (by decide) (by decide)⟩

/-- C6 witness: the hypothesised parts of `base64_encode_shape` at concrete
inputs. -/
theorem base64_encode_shape_witness :
    (∃ pre, base64_encode [77, 97] = pre ++ ['='] ∧ '=' ∉ pre)
    ∧ (∃ pre, base64_encode [77] = pre ++ ['=', '='] ∧ '=' ∉ pre)
    ∧ '=' ∉ base64_encode [77, 97, 110] :=
  ⟨base64_encode_shape.2.1 [77, 97] (by decide),
   base64_encode_shape.2.2.1 [77] (by decide),
   base64_encode_shape.2.2.2.1 [77, 97, 110] (by decide)⟩

/-! ### Claim C8 — Base85 decode -/

theorem b85blocks_invalid : ∀ s : List Char, s.length % 5 = 0 →
    (∃ c ∈ s, base85_strchr c = none) →
    b85blocks s = .error .invalidCharacterError := by
  intro s
  induction s using b85blocks.induct with
  | case1 c0 c1 c2 c3 c4 rest ih =>
    intro hlen hex
    rcases h0 : base85_strchr c0 with _ | d0
    · simp [b85blocks, h0, Bind.bind, Except.bind]
    · rcases h1 : base85_strchr c1 with _ | d1
      · simp [b85blocks, h0, h1, Bind.bind, Except.bind]
      · rcases h2 : base85_strchr c2 with _ | d2
        · simp [b85blocks, h0, h1, h2, Bind.bind, Except.bind]
        · rcases h3 : base85_strchr c3 with _ | d3
          · simp [b85blocks, h0, h1, h2, h3, Bind.bind, Except.bind]
          · rcases h4 : base85_strchr c4 with _ | d4
            · simp [b85blocks, h0, h1, h2, h3, h4, Bind.bind, Except.bind]
            · have hrest : b85blocks rest = .error .invalidCharacterError := by
                apply ih
                · simp only [List.length_cons] at hlen
                  omega
                · obtain ⟨c, hc, hfind⟩ := hex
                  simp only [List.mem_cons] at hc
                  rcases hc with rfl | rfl | rfl | rfl | rfl | hmem
                  · exact absurd hfind (by simp [h0])
                  · exact absurd hfind (by simp [h1])
                  · exact absurd hfind (by simp [h2])
                  · exact absurd hfind (by simp [h3])
                  · exact absurd hfind (by simp [h4])
                  · exact ⟨c, hmem, hfind⟩
              simp [b85blocks, h0, h1, h2, h3, h4, hrest, Bind.bind, Except.bind, pure, Except.pure]
  | case2 s hne =>
    intro hlen hex
    cases s with
    | nil => simp at hex
    | cons a as =>
      exfalso
      rcases as with _ | ⟨b, bs⟩
      · simp at hlen
      · rcases bs with _ | ⟨c, cs⟩
        · simp at hlen
        · rcases cs with _ | ⟨d, ds⟩
          · simp at hlen
          · rcases ds with _ | ⟨e, es⟩
            · simp at hlen
            · exact hne a b c d e es rfl

theorem b85blocks_valid : ∀ s : List Char, s.length % 5 = 0 →
    (∀ c ∈ s, base85_strchr c ≠ none) →
    ∃ bs, b85blocks s = .ok bs ∧ bs.length = s.length / 5 * 4 := by
  intro s
  induction s using b85blocks.induct with
  | case1 c0 c1 c2 c3 c4 rest ih =>
    intro hlen hval
    rcases h0 : base85_strchr c0 with _ | d0
    · exact absurd h0 (hval c0 (by simp))
    rcases h1 : base85_strchr c1 with _ | d1
    · exact absurd h1 (hval c1 (by simp))
    rcases h2 : base85_strchr c2 with _ | d2
    · exact absurd h2 (hval c2 (by simp))
    rcases h3 : base85_strchr c3 with _ | d3
    · exact absurd h3 (hval c3 (by simp))
    rcases h4 : base85_strchr c4 with _ | d4
    · exact absurd h4 (hval c4 (by simp))
    obtain ⟨bs, hbs, hlenbs⟩ := ih
      (by simp only [List.length_cons] at hlen; omega)
      (fun c hc => hval c (by simp [hc]))
    refine ⟨[(((((d0 * 85 + d1) * 85 + d2) * 85 + d3) * 85 + d4)) / 2 ^ 24 % 256,
      (((((d0 * 85 + d1) * 85 + d2) * 85 + d3) * 85 + d4)) / 2 ^ 16 % 256,
      (((((d0 * 85 + d1) * 85 + d2) * 85 + d3) * 85 + d4)) / 2 ^ 8 % 256,
      (((((d0 * 85 + d1) * 85 + d2) * 85 + d3) * 85 + d4)) % 256] ++ bs, ?_, ?_⟩
    · simp [b85blocks, h0, h1, h2, h3, h4, hbs, Bind.bind, Except.bind, pure, Except.pure]
    · simp only [List.length_append, List.length_cons, List.length_nil, hlenbs]
      simp only [List.length_cons] at hlen ⊢
      omega
  | case2 s hne =>
    intro hlen _
    cases s with
    | nil => exact ⟨[], rfl, rfl⟩
    | cons a as =>
      exfalso
      rcases as with _ | ⟨b, bs⟩
      · simp at hlen
      · rcases bs with _ | ⟨c, cs⟩
        · simp at hlen
        · rcases cs with _ | ⟨d, ds⟩
          · simp at hlen
          · rcases ds with _ | ⟨e, es⟩
            · simp at hlen
            · exact hne a b c d e es rfl

theorem b85block_step (c0 c1 c2 c3 c4 : Char) (d0 d1 d2 d3 d4 : Nat)
    (rest : List Char) (bs : List Nat)
    (h0 : base85_strchr c0 = some d0) (h1 : base85_strchr c1 = some d1)
    (h2 : base85_strchr c2 = some d2) (h3 : base85_strchr c3 = some d3)
    (h4 : base85_strchr c4 = some d4) (hrest : b85blocks rest = .ok bs) :
    b85blocks (c0 :: c1 :: c2 :: c3 :: c4 :: rest)
      = .ok ([((((d0 * 85 + d1) * 85 + d2) * 85 + d3) * 85 + d4) / 2 ^ 24 % 256,
              ((((d0 * 85 + d1) * 85 + d2) * 85 + d3) * 85 + d4) / 2 ^ 16 % 256,
              ((((d0 * 85 + d1) * 85 + d2) * 85 + d3) * 85 + d4) / 2 ^ 8 % 256,
              ((((d0 * 85 + d1) * 85 + d2) * 85 + d3) * 85 + d4) % 256] ++ bs) := by
  simp [b85blocks, h0, h1, h2, h3, h4, hrest, Bind.bind, Except.bind, pure, Except.pure]

/-- C8 counterexample: on the empty input both checks of the claim pass
(cleaned length 0 is a multiple of 5, there is no invalid symbol), so the
claim implies a successful empty decode — but the code's `len == 0` guard
fails instead. -/
theorem base85_decode_empty_input :
    base85_decode [] = .error .emptyInput ∧ base85_decode [] ≠ .ok [] :=
  ⟨rfl, by simp [show base85_decode [] = .error .emptyInput from rfl]⟩

/-- C8 (amended): for NONEMPTY input, `base85_decode` first discards space,
tab, CR and LF; it fails with `LengthError` when the cleaned length is not a
multiple of 5; it fails with `InvalidCharacterError` when some remaining
symbol has no `strchr` index in the table (the code's table has 90 symbols,
`'!'..'z'`, and a NUL byte is mapped to digit 90 by `strchr` matching the
string terminator rather than being rejected); otherwise it succeeds, each
5-symbol block accumulating `value = value*85 + digit` and unpacking into 4
big-endian bytes, for exactly `(cleaned_length/5)*4` output bytes. -/
theorem base85_decode_spec :
    (∀ input : List Char, input ≠ [] →
      base85_decode input
        = (if (input.filter (fun c => !(isWS c))).length % 5 ≠ 0 then .error .lengthError
           else b85blocks (input.filter (fun c => !(isWS c)))))
    ∧ (∀ input : List Char, input ≠ [] →
        (input.filter (fun c => !(isWS c))).length % 5 = 0 →
        (∃ c ∈ input.filter (fun c => !(isWS c)), base85_strchr c = none) →
        base85_decode input = .error .invalidCharacterError)
    ∧ (∀ input : List Char, input ≠ [] →
        (input.filter (fun c => !(isWS c))).length % 5 = 0 →
        (∀ c ∈ input.filter (fun c => !(isWS c)), base85_strchr c ≠ none) →
        ∃ bs, base85_decode input = .ok bs
          ∧ bs.length = (input.filter (fun c => !(isWS c))).length / 5 * 4)
    ∧ (∀ (c0 c1 c2 c3 c4 : Char) (d0 d1 d2 d3 d4 : Nat) (rest : List Char) (bs : List Nat),
        base85_strchr c0 = some d0 → base85_strchr c1 = some d1 →
        base85_strchr c2 = some d2 → base85_strchr c3 = some d3 →
        base85_strchr c4 = some d4 → b85blocks rest = .ok bs →
        b85blocks (c0 :: c1 :: c2 :: c3 :: c4 :: rest)
          = .ok ([((((d0 * 85 + d1) * 85 + d2) * 85 + d3) * 85 + d4) / 2 ^ 24 % 256,
                  ((((d0 * 85 + d1) * 85 + d2) * 85 + d3) * 85 + d4) / 2 ^ 16 % 256,
                  ((((d0 * 85 + d1) * 85 + d2) * 85 + d3) * 85 + d4) / 2 ^ 8 % 256,
                  ((((d0 * 85 + d1) * 85 + d2) * 85 + d3) * 85 + d4) % 256] ++ bs)) := by
  have hdef : ∀ input : List Char, input ≠ [] →
      base85_decode input
        = (if (input.filter (fun c => !(isWS c))).length % 5 ≠ 0 then .error .lengthError
           else b85blocks (input.filter (fun c => !(isWS c)))) := by
    intro input hne
    unfold base85_decode
    rw [if_neg (by simpa [List.length_eq_zero] using hne)]
  refine ⟨hdef, ?_, ?_, b85block_step⟩
  · intro input hne hlen hex
    rw [hdef input hne, if_neg (by omega)]
    exact b85blocks_invalid _ hlen hex
  · intro input hne hlen hval
    rw [hdef input hne, if_neg (by omega)]
    exact b85blocks_valid _ hlen hval

/-- C8 witness: concrete instances discharging the hypotheses of
`base85_decode_spec`. -/
theorem base85_decode_spec_witness :
    base85_decode [' ', '!'] = (if ([' ', '!'].filter (fun c => !(isWS c))).length % 5 ≠ 0
        then Except.error DecodeError.lengthError
        else b85blocks ([' ', '!'].filter (fun c => !(isWS c))))
    ∧ base85_decode ['{', '!', '!', '!', '!'] = .error .invalidCharacterError
    ∧ (∃ bs, base85_decode ['!', '!', '!', '!', '!'] = .ok bs ∧ bs.length = 5 / 5 * 4)
    ∧ b85blocks ['!', '!', '!', '!', '!'] = .ok ([0 / 2 ^ 24 % 256, 0 / 2 ^ 16 % 256,
        0 / 2 ^ 8 % 256, 0 % 256] ++ []) := by
  refine ⟨base85_decode_spec.1 [' ', '!'] (by decide), ?_, ?_, ?_⟩
  · exact base85_decode_spec.2.1 ['{', '!', '!', '!', '!'] (by decide) (by decide)
      ⟨'{', by decide, by decide⟩
  · exact base85_decode_spec.2.2.1 ['!', '!', '!', '!', '!'] (by decide) (by decide)
      (by decide)
  · have := base85_decode_spec.2.2.2 '!' '!' '!' '!' '!' 0 0 0 0 0 [] []
      (by decide) (by decide) (by decide) (by decide) (by decide) rfl
    simpa using this

/-! ### Claim C5 — Base32/Base64 decode padding and group yields -/

theorem find64_ne_pad (c : Char) (i : Nat)
    (h : find_index c base64_table = some i) : c ≠ '=' := by
  intro hc
  subst hc
  rw [show find_index '=' base64_table = none from by decide] at h
  cases h

theorem find32_ne_pad (c : Char) (i : Nat)
    (h : find_index c base32_table = some i) : c ≠ '=' := by
  intro hc
  subst hc
  rw [show find_index '=' base32_table = none from by decide] at h
  cases h

theorem padInput_mod4 (s : List Char) : (padInput 4 s).length % 4 = 0 := by
  unfold padInput
  simp only [List.length_append, List.length_replicate]
  omega

theorem padInput_mod8 (s : List Char) : (padInput 8 s).length % 8 = 0 := by
  unfold padInput
  simp only [List.length_append, List.length_replicate]
  omega

theorem b64idx_invalid (c : Char) (hne : c ≠ '=')
    (h : find_index c base64_table = none) :
    b64idx c = .error .invalidCharacterError := by
  simp [b64idx, hne, h]

theorem b32idx_invalid (c : Char) (hne : c ≠ '=')
    (h : find_index c base32_table = none) :
    b32idx c = .error .invalidCharacterError := by
  simp [b32idx, hne, h]

theorem b64idx_ok (c : Char) :
    (c = '=' → b64idx c = .ok 0)
    ∧ (∀ i, find_index c base64_table = some i → b64idx c = .ok i) := by
  constructor
  · intro h; simp [b64idx, h]
  · intro i h
    simp [b64idx, find64_ne_pad c i h, h]

theorem b32idx_ok (c : Char) :
    (c = '=' → b32idx c = .ok 0)
    ∧ (∀ i, find_index c base32_table = some i → b32idx c = .ok i) := by
  constructor
  · intro h; simp [b32idx, h]
  · intro i h
    simp [b32idx, find32_ne_pad c i h, h]

theorem b64idx_total (c : Char) :
    (∃ i, b64idx c = .ok i) ∨ b64idx c = .error .invalidCharacterError := by
  by_cases h : c = '='
  · exact .inl ⟨0, by simp [b64idx, h]⟩
  · rcases hf : find_index c base64_table with _ | i
    · exact .inr (by simp [b64idx, h, hf])
    · exact .inl ⟨i, by simp [b64idx, h, hf]⟩

theorem b32idx_total (c : Char) :
    (∃ i, b32idx c = .ok i) ∨ b32idx c = .error .invalidCharacterError := by
  by_cases h : c = '='
  · exact .inl ⟨0, by simp [b32idx, h]⟩
  · rcases hf : find_index c base32_table with _ | i
    · exact .inr (by simp [b32idx, h, hf])
    · exact .inl ⟨i, by simp [b32idx, h, hf]⟩

theorem b64group_yield_full (c0 c1 c2 c3 : Char) (i0 i1 i2 i3 : Nat)
    (h0 : find_index c0 base64_table = some i0)
    (h1 : find_index c1 base64_table = some i1)
    (h2 : find_index c2 base64_table = some i2)
    (h3 : find_index c3 base64_table = some i3) :
    b64group c0 c1 c2 c3
      = .ok [(i0 * 2 ^ 18 + i1 * 2 ^ 12 + i2 * 2 ^ 6 + i3) / 2 ^ 16 % 256,
             (i0 * 2 ^ 18 + i1 * 2 ^ 12 + i2 * 2 ^ 6 + i3) / 2 ^ 8 % 256,
             (i0 * 2 ^ 18 + i1 * 2 ^ 12 + i2 * 2 ^ 6 + i3) % 256] := by
  simp [b64group, (b64idx_ok c0).2 i0 h0, (b64idx_ok c1).2 i1 h1,
    (b64idx_ok c2).2 i2 h2, (b64idx_ok c3).2 i3 h3,
    find64_ne_pad c2 i2 h2, find64_ne_pad c3 i3 h3,
    Bind.bind, Except.bind, pure, Except.pure]

theorem b64group_yield_pad1 (c0 c1 c2 : Char) (i0 i1 i2 : Nat)
    (h0 : find_index c0 base64_table = some i0)
    (h1 : find_index c1 base64_table = some i1)
    (h2 : find_index c2 base64_table = some i2) :
    b64group c0 c1 c2 '='
      = .ok [(i0 * 2 ^ 18 + i1 * 2 ^ 12 + i2 * 2 ^ 6 + 0) / 2 ^ 16 % 256,
             (i0 * 2 ^ 18 + i1 * 2 ^ 12 + i2 * 2 ^ 6 + 0) / 2 ^ 8 % 256] := by
  simp [b64group, (b64idx_ok c0).2 i0 h0, (b64idx_ok c1).2 i1 h1,
    (b64idx_ok c2).2 i2 h2, (b64idx_ok '=').1 rfl,
    find64_ne_pad c2 i2 h2,
    Bind.bind, Except.bind, pure, Except.pure]

theorem b64group_yield_pad2 (c0 c1 : Char) (i0 i1 : Nat)
    (h0 : find_index c0 base64_table = some i0)
    (h1 : find_index c1 base64_table = some i1) :
    b64group c0 c1 '=' '='
      = .ok [(i0 * 2 ^ 18 + i1 * 2 ^ 12 + 0 * 2 ^ 6 + 0) / 2 ^ 16 % 256] := by
  simp [b64group, (b64idx_ok c0).2 i0 h0, (b64idx_ok c1).2 i1 h1,
    (b64idx_ok '=').1 rfl,
    Bind.bind, Except.bind, pure, Except.pure]

theorem b32group_yield_full (c0 c1 c2 c3 c4 c5 c6 c7 : Char)
    (i0 i1 i2 i3 i4 i5 i6 i7 : Nat)
    (h0 : find_index c0 base32_table = some i0)
    (h1 : find_index c1 base32_table = some i1)
    (h2 : find_index c2 base32_table = some i2)
    (h3 : find_index c3 base32_table = some i3)
    (h4 : find_index c4 base32_table = some i4)
    (h5 : find_index c5 base32_table = some i5)
    (h6 : find_index c6 base32_table = some i6)
    (h7 : find_index c7 base32_table = some i7) :
    b32group c0 c1 c2 c3 c4 c5 c6 c7
      = .ok [(i0 * 2 ^ 35 + i1 * 2 ^ 30 + i2 * 2 ^ 25 + i3 * 2 ^ 20 + i4 * 2 ^ 15
                + i5 * 2 ^ 10 + i6 * 2 ^ 5 + i7) / 2 ^ 32 % 256,
             (i0 * 2 ^ 35 + i1 * 2 ^ 30 + i2 * 2 ^ 25 + i3 * 2 ^ 20 + i4 * 2 ^ 15
                + i5 * 2 ^ 10 + i6 * 2 ^ 5 + i7) / 2 ^ 24 % 256,
             (i0 * 2 ^ 35 + i1 * 2 ^ 30 + i2 * 2 ^ 25 + i3 * 2 ^ 20 + i4 * 2 ^ 15
                + i5 * 2 ^ 10 + i6 * 2 ^ 5 + i7) / 2 ^ 16 % 256,
             (i0 * 2 ^ 35 + i1 * 2 ^ 30 + i2 * 2 ^ 25 + i3 * 2 ^ 20 + i4 * 2 ^ 15
                + i5 * 2 ^ 10 + i6 * 2 ^ 5 + i7) / 2 ^ 8 % 256,
             (i0 * 2 ^ 35 + i1 * 2 ^ 30 + i2 * 2 ^ 25 + i3 * 2 ^ 20 + i4 * 2 ^ 15
                + i5 * 2 ^ 10 + i6 * 2 ^ 5 + i7) % 256] := by
  simp [b32group, (b32idx_ok c0).2 i0 h0, (b32idx_ok c1).2 i1 h1,
    (b32idx_ok c2).2 i2 h2, (b32idx_ok c3).2 i3 h3, (b32idx_ok c4).2 i4 h4,
    (b32idx_ok c5).2 i5 h5, (b32idx_ok c6).2 i6 h6, (b32idx_ok c7).2 i7 h7,
    find32_ne_pad c2 i2 h2, find32_ne_pad c4 i4 h4,
    find32_ne_pad c5 i5 h5, find32_ne_pad c6 i6 h6,
    Bind.bind, Except.bind, pure, Except.pure]

theorem b32group_yield_4 (c0 c1 c2 c3 c4 c5 : Char) (i0 i1 i2 i3 i4 i5 : Nat)
    (h0 : find_index c0 base32_table = some i0)
    (h1 : find_index c1 base32_table = some i1)
    (h2 : find_index c2 base32_table = some i2)
    (h3 : find_index c3 base32_table = some i3)
    (h4 : find_index c4 base32_table = some i4)
    (h5 : find_index c5 base32_table = some i5) :
    b32group c0 c1 c2 c3 c4 c5 '=' '='
      = .ok [(i0 * 2 ^ 35 + i1 * 2 ^ 30 + i2 * 2 ^ 25 + i3 * 2 ^ 20 + i4 * 2 ^ 15
                + i5 * 2 ^ 10 + 0 * 2 ^ 5 + 0) / 2 ^ 32 % 256,
             (i0 * 2 ^ 35 + i1 * 2 ^ 30 + i2 * 2 ^ 25 + i3 * 2 ^ 20 + i4 * 2 ^ 15
                + i5 * 2 ^ 10 + 0 * 2 ^ 5 + 0) / 2 ^ 24 % 256,
             (i0 * 2 ^ 35 + i1 * 2 ^ 30 + i2 * 2 ^ 25 + i3 * 2 ^ 20 + i4 * 2 ^ 15
                + i5 * 2 ^ 10 + 0 * 2 ^ 5 + 0) / 2 ^ 16 % 256,
             (i0 * 2 ^ 35 + i1 * 2 ^ 30 + i2 * 2 ^ 25 + i3 * 2 ^ 20 + i4 * 2 ^ 15
                + i5 * 2 ^ 10 + 0 * 2 ^ 5 + 0) / 2 ^ 8 % 256] := by
  simp [b32group, (b32idx_ok c0).2 i0 h0, (b32idx_ok c1).2 i1 h1,
    (b32idx_ok c2).2 i2 h2, (b32idx_ok c3).2 i3 h3, (b32idx_ok c4).2 i4 h4,
    (b32idx_ok c5).2 i5 h5, (b32idx_ok '=').1 rfl,
    find32_ne_pad c2 i2 h2, find32_ne_pad c4 i4 h4, find32_ne_pad c5 i5 h5,
    Bind.bind, Except.bind, pure, Except.pure]

theorem b32group_yield_3 (c0 c1 c2 c3 c4 : Char) (i0 i1 i2 i3 i4 : Nat)
    (h0 : find_index c0 base32_table = some i0)
    (h1 : find_index c1 base32_table = some i1)
    (h2 : find_index c2 base32_table = some i2)
    (h3 : find_index c3 base32_table = some i3)
    (h4 : find_index c4 base32_table = some i4) :
    b32group c0 c1 c2 c3 c4 '=' '=' '='
      = .ok [(i0 * 2 ^ 35 + i1 * 2 ^ 30 + i2 * 2 ^ 25 + i3 * 2 ^ 20 + i4 * 2 ^ 15
                + 0 * 2 ^ 10 + 0 * 2 ^ 5 + 0) / 2 ^ 32 % 256,
             (i0 * 2 ^ 35 + i1 * 2 ^ 30 + i2 * 2 ^ 25 + i3 * 2 ^ 20 + i4 * 2 ^ 15
                + 0 * 2 ^ 10 + 0 * 2 ^ 5 + 0) / 2 ^ 24 % 256,
             (i0 * 2 ^ 35 + i1 * 2 ^ 30 + i2 * 2 ^ 25 + i3 * 2 ^ 20 + i4 * 2 ^ 15
                + 0 * 2 ^ 10 + 0 * 2 ^ 5 + 0) / 2 ^ 16 % 256] := by
  simp [b32group, (b32idx_ok c0).2 i0 h0, (b32idx_ok c1).2 i1 h1,
    (b32idx_ok c2).2 i2 h2, (b32idx_ok c3).2 i3 h3, (b32idx_ok c4).2 i4 h4,
    (b32idx_ok '=').1 rfl,
    find32_ne_pad c2 i2 h2, find32_ne_pad c4 i4 h4,
    Bind.bind, Except.bind, pure, Except.pure]

theorem b32group_yield_2 (c0 c1 c2 c3 : Char) (i0 i1 i2 i3 : Nat)
    (h0 : find_index c0 base32_table = some i0)
    (h1 : find_index c1 base32_table = some i1)
    (h2 : find_index c2 base32_table = some i2)
    (h3 : find_index c3 base32_table = some i3) :
    b32group c0 c1 c2 c3 '=' '=' '=' '='
      = .ok [(i0 * 2 ^ 35 + i1 * 2 ^ 30 + i2 * 2 ^ 25 + i3 * 2 ^ 20 + 0 * 2 ^ 15
                + 0 * 2 ^ 10 + 0 * 2 ^ 5 + 0) / 2 ^ 32 % 256,
             (i0 * 2 ^ 35 + i1 * 2 ^ 30 + i2 * 2 ^ 25 + i3 * 2 ^ 20 + 0 * 2 ^ 15
                + 0 * 2 ^ 10 + 0 * 2 ^ 5 + 0) / 2 ^ 24 % 256] := by
  have e0 := (b32idx_ok c0).2 i0 h0
  have e1 := (b32idx_ok c1).2 i1 h1
  have e2 := (b32idx_ok c2).2 i2 h2
  have e3 := (b32idx_ok c3).2 i3 h3
  have ep := (b32idx_ok '=').1 rfl
  unfold b32group
  rw [e0, e1, e2, e3, ep]
  simp only [Bind.bind, Except.bind, pure, Except.pure]
  have hpad : ¬('=' : Char) ≠ '=' := by simp
  rw [if_pos (find32_ne_pad c2 i2 h2), if_neg hpad, if_neg hpad, if_neg hpad]
  rfl

theorem b32group_yield_1 (c0 c1 : Char) (i0 i1 : Nat)
    (h0 : find_index c0 base32_table = some i0)
    (h1 : find_index c1 base32_table = some i1) :
    b32group c0 c1 '=' '=' '=' '=' '=' '='
      = .ok [(i0 * 2 ^ 35 + i1 * 2 ^ 30 + 0 * 2 ^ 25 + 0 * 2 ^ 20 + 0 * 2 ^ 15
                + 0 * 2 ^ 10 + 0 * 2 ^ 5 + 0) / 2 ^ 32 % 256] := by
  have e0 := (b32idx_ok c0).2 i0 h0
  have e1 := (b32idx_ok c1).2 i1 h1
  have ep := (b32idx_ok '=').1 rfl
  unfold b32group
  rw [e0, e1, ep]
  simp only [Bind.bind, Except.bind, pure, Except.pure]
  have hpad : ¬('=' : Char) ≠ '=' := by simp
  rw [if_neg hpad, if_neg hpad, if_neg hpad, if_neg hpad]
  rfl

theorem b64groups_cons_error (c0 c1 c2 c3 : Char) (rest : List Char) (e : DecodeError)
    (h : b64group c0 c1 c2 c3 = .error e) :
    b64groups (c0 :: c1 :: c2 :: c3 :: rest) = .error e := by
  simp [b64groups, h, Bind.bind, Except.bind]

theorem b64groups_cons_ok (c0 c1 c2 c3 : Char) (rest : List Char)
    (g r : List Nat) (h : b64group c0 c1 c2 c3 = .ok g)
    (h2 : b64groups rest = .ok r) :
    b64groups (c0 :: c1 :: c2 :: c3 :: rest) = .ok (g ++ r) := by
  simp [b64groups, h, h2, Bind.bind, Except.bind, pure, Except.pure]

theorem b64groups_cons_rest_error (c0 c1 c2 c3 : Char) (rest : List Char)
    (g : List Nat) (e : DecodeError) (h : b64group c0 c1 c2 c3 = .ok g)
    (h2 : b64groups rest = .error e) :
    b64groups (c0 :: c1 :: c2 :: c3 :: rest) = .error e := by
  simp [b64groups, h, h2, Bind.bind, Except.bind]

theorem b32groups_cons_error (c0 c1 c2 c3 c4 c5 c6 c7 : Char) (rest : List Char)
    (e : DecodeError) (h : b32group c0 c1 c2 c3 c4 c5 c6 c7 = .error e) :
    b32groups (c0 :: c1 :: c2 :: c3 :: c4 :: c5 :: c6 :: c7 :: rest) = .error e := by
  simp [b32groups, h, Bind.bind, Except.bind]

theorem b32groups_cons_ok (c0 c1 c2 c3 c4 c5 c6 c7 : Char) (rest : List Char)
    (g r : List Nat) (h : b32group c0 c1 c2 c3 c4 c5 c6 c7 = .ok g)
    (h2 : b32groups rest = .ok r) :
    b32groups (c0 :: c1 :: c2 :: c3 :: c4 :: c5 :: c6 :: c7 :: rest) = .ok (g ++ r) := by
  simp [b32groups, h, h2, Bind.bind, Except.bind, pure, Except.pure]

theorem b32groups_cons_rest_error (c0 c1 c2 c3 c4 c5 c6 c7 : Char) (rest : List Char)
    (g : List Nat) (e : DecodeError) (h : b32group c0 c1 c2 c3 c4 c5 c6 c7 = .ok g)
    (h2 : b32groups rest = .error e) :
    b32groups (c0 :: c1 :: c2 :: c3 :: c4 :: c5 :: c6 :: c7 :: rest) = .error e := by
  simp [b32groups, h, h2, Bind.bind, Except.bind]

/-- With all four symbol indices resolved, `b64group` computes the value and
emits bytes keyed off the pad checks at offsets 2 and 3. -/
theorem b64group_ok_of_idx (c0 c1 c2 c3 : Char) (i0 i1 i2 i3 : Nat)
    (e0 : b64idx c0 = .ok i0) (e1 : b64idx c1 = .ok i1)
    (e2 : b64idx c2 = .ok i2) (e3 : b64idx c3 = .ok i3) :
    b64group c0 c1 c2 c3
      = .ok ([(i0 * 2 ^ 18 + i1 * 2 ^ 12 + i2 * 2 ^ 6 + i3) / 2 ^ 16 % 256]
        ++ (if c2 ≠ '=' then [(i0 * 2 ^ 18 + i1 * 2 ^ 12 + i2 * 2 ^ 6 + i3) / 2 ^ 8 % 256] else [])
        ++ (if c3 ≠ '=' then [(i0 * 2 ^ 18 + i1 * 2 ^ 12 + i2 * 2 ^ 6 + i3) % 256] else [])) := by
  unfold b64group
  rw [e0, e1, e2, e3]
  rfl

/-- With all eight symbol indices resolved, `b32group` computes the value and
emits bytes keyed off the pad checks at offsets 2, 4, 5 and 6. -/
theorem b32group_ok_of_idx (c0 c1 c2 c3 c4 c5 c6 c7 : Char)
    (i0 i1 i2 i3 i4 i5 i6 i7 : Nat)
    (e0 : b32idx c0 = .ok i0) (e1 : b32idx c1 = .ok i1)
    (e2 : b32idx c2 = .ok i2) (e3 : b32idx c3 = .ok i3)
    (e4 : b32idx c4 = .ok i4) (e5 : b32idx c5 = .ok i5)
    (e6 : b32idx c6 = .ok i6) (e7 : b32idx c7 = .ok i7) :
    b32group c0 c1 c2 c3 c4 c5 c6 c7
      = .ok ([(i0 * 2 ^ 35 + i1 * 2 ^ 30 + i2 * 2 ^ 25 + i3 * 2 ^ 20 + i4 * 2 ^ 15
                + i5 * 2 ^ 10 + i6 * 2 ^ 5 + i7) / 2 ^ 32 % 256]
        ++ (if c2 ≠ '=' then [(i0 * 2 ^ 35 + i1 * 2 ^ 30 + i2 * 2 ^ 25 + i3 * 2 ^ 20
                + i4 * 2 ^ 15 + i5 * 2 ^ 10 + i6 * 2 ^ 5 + i7) / 2 ^ 24 % 256] else [])
        ++ (if c4 ≠ '=' then [(i0 * 2 ^ 35 + i1 * 2 ^ 30 + i2 * 2 ^ 25 + i3 * 2 ^ 20
                + i4 * 2 ^ 15 + i5 * 2 ^ 10 + i6 * 2 ^ 5 + i7) / 2 ^ 16 % 256] else [])
        ++ (if c5 ≠ '=' then [(i0 * 2 ^ 35 + i1 * 2 ^ 30 + i2 * 2 ^ 25 + i3 * 2 ^ 20
                + i4 * 2 ^ 15 + i5 * 2 ^ 10 + i6 * 2 ^ 5 + i7) / 2 ^ 8 % 256] else [])
        ++ (if c6 ≠ '=' then [(i0 * 2 ^ 35 + i1 * 2 ^ 30 + i2 * 2 ^ 25 + i3 * 2 ^ 20
                + i4 * 2 ^ 15 + i5 * 2 ^ 10 + i6 * 2 ^ 5 + i7) % 256] else [])) := by
  unfold b32group
  rw [e0, e1, e2, e3, e4, e5, e6, e7]
  rfl

theorem b64groups_invalid : ∀ s : List Char, s.length % 4 = 0 →
    (∃ c ∈ s, c ≠ '=' ∧ find_index c base64_table = none) →
    b64groups s = .error .invalidCharacterError := by
  intro s
  induction s using b64groups.induct with
  | case1 c0 c1 c2 c3 rest ih =>
    intro hlen hex
    rcases b64idx_total c0 with ⟨i0, e0⟩ | e0
    case inr =>
      apply b64groups_cons_error
      unfold b64group
      rw [e0]
      rfl
    rcases b64idx_total c1 with ⟨i1, e1⟩ | e1
    case inr =>
      apply b64groups_cons_error
      unfold b64group
      rw [e0, e1]
      rfl
    rcases b64idx_total c2 with ⟨i2, e2⟩ | e2
    case inr =>
      apply b64groups_cons_error
      unfold b64group
      rw [e0, e1, e2]
      rfl
    rcases b64idx_total c3 with ⟨i3, e3⟩ | e3
    case inr =>
      apply b64groups_cons_error
      unfold b64group
      rw [e0, e1, e2, e3]
      rfl
    apply b64groups_cons_rest_error _ _ _ _ _ _ _
      (b64group_ok_of_idx c0 c1 c2 c3 i0 i1 i2 i3 e0 e1 e2 e3)
    apply ih
    · simp only [List.length_cons] at hlen
      omega
    · obtain ⟨c, hc, hne, hfind⟩ := hex
      have hbad : b64idx c = .error .invalidCharacterError := b64idx_invalid c hne hfind
      simp only [List.mem_cons] at hc
      rcases hc with rfl | rfl | rfl | rfl | hmem
      · rw [e0] at hbad; cases hbad
      · rw [e1] at hbad; cases hbad
      · rw [e2] at hbad; cases hbad
      · rw [e3] at hbad; cases hbad
      · exact ⟨c, hmem, hne, hfind⟩
  | case2 s hne =>
    intro hlen hex
    exfalso
    rcases s with _ | ⟨a, _ | ⟨b, _ | ⟨c, _ | ⟨d, es⟩⟩⟩⟩
    · simp at hex
    · simp at hlen
    · simp at hlen
    · simp at hlen
    · exact hne a b c d es rfl

theorem b32groups_invalid : ∀ s : List Char, s.length % 8 = 0 →
    (∃ c ∈ s, c ≠ '=' ∧ find_index c base32_table = none) →
    b32groups s = .error .invalidCharacterError := by
  intro s
  induction s using b32groups.induct with
  | case1 c0 c1 c2 c3 c4 c5 c6 c7 rest ih =>
    intro hlen hex
    rcases b32idx_total c0 with ⟨i0, e0⟩ | e0
    case inr =>
      apply b32groups_cons_error
      unfold b32group
      rw [e0]
      rfl
    rcases b32idx_total c1 with ⟨i1, e1⟩ | e1
    case inr =>
      apply b32groups_cons_error
      unfold b32group
      rw [e0, e1]
      rfl
    rcases b32idx_total c2 with ⟨i2, e2⟩ | e2
    case inr =>
      apply b32groups_cons_error
      unfold b32group
      rw [e0, e1, e2]
      rfl
    rcases b32idx_total c3 with ⟨i3, e3⟩ | e3
    case inr =>
      apply b32groups_cons_error
      unfold b32group
      rw [e0, e1, e2, e3]
      rfl
    rcases b32idx_total c4 with ⟨i4, e4⟩ | e4
    case inr =>
      apply b32groups_cons_error
      unfold b32group
      rw [e0, e1, e2, e3, e4]
      rfl
    rcases b32idx_total c5 with ⟨i5, e5⟩ | e5
    case inr =>
      apply b32groups_cons_error
      unfold b32group
      rw [e0, e1, e2, e3, e4, e5]
      rfl
    rcases b32idx_total c6 with ⟨i6, e6⟩ | e6
    case inr =>
      apply b32groups_cons_error
      unfold b32group
      rw [e0, e1, e2, e3, e4, e5, e6]
      rfl
    rcases b32idx_total c7 with ⟨i7, e7⟩ | e7
    case inr =>
      apply b32groups_cons_error
      unfold b32group
      rw [e0, e1, e2, e3, e4, e5, e6, e7]
      rfl
    apply b32groups_cons_rest_error _ _ _ _ _ _ _ _ _ _ _
      (b32group_ok_of_idx c0 c1 c2 c3 c4 c5 c6 c7 i0 i1 i2 i3 i4 i5 i6 i7
        e0 e1 e2 e3 e4 e5 e6 e7)
    apply ih
    · simp only [List.length_cons] at hlen
      omega
    · obtain ⟨c, hc, hne, hfind⟩ := hex
      have hbad : b32idx c = .error .invalidCharacterError := b32idx_invalid c hne hfind
      simp only [List.mem_cons] at hc
      rcases hc with rfl | rfl | rfl | rfl | rfl | rfl | rfl | rfl | hmem
      · rw [e0] at hbad; cases hbad
      · rw [e1] at hbad; cases hbad
      · rw [e2] at hbad; cases hbad
      · rw [e3] at hbad; cases hbad
      · rw [e4] at hbad; cases hbad
      · rw [e5] at hbad; cases hbad
      · rw [e6] at hbad; cases hbad
      · rw [e7] at hbad; cases hbad
      · exact ⟨c, hmem, hne, hfind⟩
  | case2 s hne =>
    intro hlen hex
    exfalso
    rcases s with _ | ⟨a, _ | ⟨b, _ | ⟨c, _ | ⟨d, _ | ⟨e, _ | ⟨f, _ | ⟨g, _ | ⟨h, es⟩⟩⟩⟩⟩⟩⟩⟩
    · simp at hex
    · simp at hlen
    · simp at hlen
    · simp at hlen
    · simp at hlen
    · simp at hlen
    · simp at hlen
    · simp at hlen
    · exact hne a b c d e f g h es rfl

/-- C5: `base32_decode` / `base64_decode` first right-pad the text with `'='`
to the next multiple of 8 / 4 symbols, then decode full groups with output
byte counts keyed off the pad positions: a Base64 4-symbol group of alphabet
symbols yields 3 bytes, 2 bytes when symbol 4 is the pad, 1 byte when symbols
3 and 4 are pads; a Base32 8-symbol group yields 5/4/3/2/1 bytes keyed off
the pad at intra-group offsets 2, 4, 5, 6; and any character that is neither
an alphabet symbol nor `'='` makes decoding fail with
`InvalidCharacterError`. -/
theorem base32_base64_decode_padding_and_groups :
    (∀ s : List Char, base64_decode s = b64groups (padInput 4 s))
    ∧ (∀ s : List Char, base32_decode s = b32groups (padInput 8 s))
    ∧ (∀ s : List Char,
        padInput 4 s = s ++ List.replicate ((4 - s.length % 4) % 4) '='
          ∧ (padInput 4 s).length % 4 = 0)
    ∧ (∀ s : List Char,
        padInput 8 s = s ++ List.replicate ((8 - s.length % 8) % 8) '='
          ∧ (padInput 8 s).length % 8 = 0)
    ∧ (∀ c0 c1 c2 c3 : Char, ∀ i0 i1 i2 i3 : Nat,
        find_index c0 base64_table = some i0 → find_index c1 base64_table = some i1 →
        find_index c2 base64_table = some i2 → find_index c3 base64_table = some i3 →
        ∃ bs, b64group c0 c1 c2 c3 = .ok bs ∧ bs.length = 3)
    ∧ (∀ c0 c1 c2 : Char, ∀ i0 i1 i2 : Nat,
        find_index c0 base64_table = some i0 → find_index c1 base64_table = some i1 →
        find_index c2 base64_table = some i2 →
        ∃ bs, b64group c0 c1 c2 '=' = .ok bs ∧ bs.length = 2)
    ∧ (∀ c0 c1 : Char, ∀ i0 i1 : Nat,
        find_index c0 base64_table = some i0 → find_index c1 base64_table = some i1 →
        ∃ bs, b64group c0 c1 '=' '=' = .ok bs ∧ bs.length = 1)
    ∧ (∀ c0 c1 c2 c3 c4 c5 c6 c7 : Char, ∀ i0 i1 i2 i3 i4 i5 i6 i7 : Nat,
        find_index c0 base32_table = some i0 → find_index c1 base32_table = some i1 →
        find_index c2 base32_table = some i2 → find_index c3 base32_table = some i3 →
        find_index c4 base32_table = some i4 → find_index c5 base32_table = some i5 →
        find_index c6 base32_table = some i6 → find_index c7 base32_table = some i7 →
        ∃ bs, b32group c0 c1 c2 c3 c4 c5 c6 c7 = .ok bs ∧ bs.length = 5)
    ∧ (∀ c0 c1 c2 c3 c4 c5 : Char, ∀ i0 i1 i2 i3 i4 i5 : Nat,
        find_index c0 base32_table = some i0 → find_index c1 base32_table = some i1 →
        find_index c2 base32_table = some i2 → find_index c3 base32_table = some i3 →
        find_index c4 base32_table = some i4 → find_index c5 base32_table = some i5 →
        ∃ bs, b32group c0 c1 c2 c3 c4 c5 '=' '=' = .ok bs ∧ bs.length = 4)
    ∧ (∀ c0 c1 c2 c3 c4 : Char, ∀ i0 i1 i2 i3 i4 : Nat,
        find_index c0 base32_table = some i0 → find_index c1 base32_table = some i1 →
        find_index c2 base32_table = some i2 → find_index c3 base32_table = some i3 →
        find_index c4 base32_table = some i4 →
        ∃ bs, b32group c0 c1 c2 c3 c4 '=' '=' '=' = .ok bs ∧ bs.length = 3)
    ∧ (∀ c0 c1 c2 c3 : Char, ∀ i0 i1 i2 i3 : Nat,
        find_index c0 base32_table = some i0 → find_index c1 base32_table = some i1 →
        find_index c2 base32_table = some i2 → find_index c3 base32_table = some i3 →
        ∃ bs, b32group c0 c1 c2 c3 '=' '=' '=' '=' = .ok bs ∧ bs.length = 2)
    ∧ (∀ c0 c1 : Char, ∀ i0 i1 : Nat,
        find_index c0 base32_table = some i0 → find_index c1 base32_table = some i1 →
        ∃ bs, b32group c0 c1 '=' '=' '=' '=' '=' '=' = .ok bs ∧ bs.length = 1)
    ∧ (∀ s : List Char, (∃ c ∈ s, c ≠ '=' ∧ find_index c base64_table = none) →
        base64_decode s = .error .invalidCharacterError)
    ∧ (∀ s : List Char, (∃ c ∈ s, c ≠ '=' ∧ find_index c base32_table = none) →
        base32_decode s = .error .invalidCharacterError) := by
  refine ⟨fun _ => rfl, fun _ => rfl,
    fun s => ⟨rfl, padInput_mod4 s⟩, fun s => ⟨rfl, padInput_mod8 s⟩,
    ?_, ?_, ?_, ?_, ?_, ?_, ?_, ?_, ?_, ?_⟩
  · intro c0 c1 c2 c3 i0 i1 i2 i3 h0 h1 h2 h3
    exact ⟨_, b64group_yield_full c0 c1 c2 c3 i0 i1 i2 i3 h0 h1 h2 h3, rfl⟩
  · intro c0 c1 c2 i0 i1 i2 h0 h1 h2
    exact ⟨_, b64group_yield_pad1 c0 c1 c2 i0 i1 i2 h0 h1 h2, rfl⟩
  · intro c0 c1 i0 i1 h0 h1
    exact ⟨_, b64group_yield_pad2 c0 c1 i0 i1 h0 h1, rfl⟩
  · intro c0 c1 c2 c3 c4 c5 c6 c7 i0 i1 i2 i3 i4 i5 i6 i7 h0 h1 h2 h3 h4 h5 h6 h7
    exact ⟨_, b32group_yield_full c0 c1 c2 c3 c4 c5 c6 c7 i0 i1 i2 i3 i4 i5 i6 i7
      h0 h1 h2 h3 h4 h5 h6 h7, rfl⟩
  · intro c0 c1 c2 c3 c4 c5 i0 i1 i2 i3 i4 i5 h0 h1 h2 h3 h4 h5
    exact ⟨_, b32group_yield_4 c0 c1 c2 c3 c4 c5 i0 i1 i2 i3 i4 i5 h0 h1 h2 h3 h4 h5, rfl⟩
  · intro c0 c1 c2 c3 c4 i0 i1 i2 i3 i4 h0 h1 h2 h3 h4
    exact ⟨_, b32group_yield_3 c0 c1 c2 c3 c4 i0 i1 i2 i3 i4 h0 h1 h2 h3 h4, rfl⟩
  · intro c0 c1 c2 c3 i0 i1 i2 i3 h0 h1 h2 h3
    exact ⟨_, b32group_yield_2 c0 c1 c2 c3 i0 i1 i2 i3 h0 h1 h2 h3, rfl⟩
  · intro c0 c1 i0 i1 h0 h1
    exact ⟨_, b32group_yield_1 c0 c1 i0 i1 h0 h1, rfl⟩
  · intro s ⟨c, hc, hne, hfind⟩
    show b64groups (padInput 4 s) = _
    exact b64groups_invalid _ (padInput_mod4 s)
      ⟨c, List.mem_append_left _ hc, hne, hfind⟩
  · intro s ⟨c, hc, hne, hfind⟩
    show b32groups (padInput 8 s) = _
    exact b32groups_invalid _ (padInput_mod8 s)
      ⟨c, List.mem_append_left _ hc, hne, hfind⟩

/-- C5 witness: concrete instances discharging the hypotheses of
`base32_base64_decode_padding_and_groups`. -/
theorem base32_base64_decode_padding_and_groups_witness :
    (∃ bs, b64group 'T' 'W' 'F' 'u' = .ok bs ∧ bs.length = 3)
    ∧ (∃ bs, b64group 'T' 'W' '=' '=' = .ok bs ∧ bs.length = 1)
    ∧ (∃ bs, b32group 'J' 'B' 'S' 'W' 'Y' '3' 'D' 'P' = .ok bs ∧ bs.length = 5)
    ∧ (∃ bs, b32group 'M' 'E' '=' '=' '=' '=' '=' '=' = .ok bs ∧ bs.length = 1)
    ∧ base64_decode ['T', 'W', '@', 'u'] = .error .invalidCharacterError
    ∧ base32_decode ['M', 'E', '@'] = .error .invalidCharacterError :=
  ⟨base32_base64_decode_padding_and_groups.2.2.2.2.1 'T' 'W' 'F' 'u' 19 22 5 46
      (by decide) (by decide) (by decide) (by decide),
   base32_base64_decode_padding_and_groups.2.2.2.2.2.2.1 'T' 'W' 19 22
      (by decide) (by decide),
   base32_base64_decode_padding_and_groups.2.2.2.2.2.2.2.1 'J' 'B' 'S' 'W' 'Y' '3' 'D' 'P'
      9 1 18 22 24 27 3 15
      (by decide) (by decide) (by decide) (by decide)
      (by decide) (by decide) (by decide) (by decide),
   base32_base64_decode_padding_and_groups.2.2.2.2.2.2.2.2.2.2.2.1 'M' 'E' 12 4
      (by decide) (by decide),
   base32_base64_decode_padding_and_groups.2.2.2.2.2.2.2.2.2.2.2.2.1 ['T', 'W', '@', 'u']
      ⟨'@', by decide, by decide, by decide⟩,
   base32_base64_decode_padding_and_groups.2.2.2.2.2.2.2.2.2.2.2.2.2 ['M', 'E', '@']
      ⟨'@', by decide, by decide, by decide⟩⟩

/-! ### Claim C10 — pads accepted in non-final groups -/

theorem b64idx_ok_of_validOrPad (c : Char)
    (h : c = '=' ∨ find_index c base64_table ≠ none) : ∃ i, b64idx c = .ok i := by
  rcases h with h | h
  · exact ⟨0, (b64idx_ok c).1 h⟩
  · rcases hf : find_index c base64_table with _ | i
    · exact absurd hf h
    · exact ⟨i, (b64idx_ok c).2 i hf⟩

theorem b32idx_ok_of_validOrPad (c : Char)
    (h : c = '=' ∨ find_index c base32_table ≠ none) : ∃ i, b32idx c = .ok i := by
  rcases h with h | h
  · exact ⟨0, (b32idx_ok c).1 h⟩
  · rcases hf : find_index c base32_table with _ | i
    · exact absurd hf h
    · exact ⟨i, (b32idx_ok c).2 i hf⟩

theorem b64groups_ok_of_validOrPad : ∀ s : List Char,
    (∀ c ∈ s, c = '=' ∨ find_index c base64_table ≠ none) →
    ∃ bs, b64groups s = .ok bs := by
  intro s
  induction s using b64groups.induct with
  | case1 c0 c1 c2 c3 rest ih =>
    intro hval
    obtain ⟨i0, e0⟩ := b64idx_ok_of_validOrPad c0 (hval c0 (by simp))
    obtain ⟨i1, e1⟩ := b64idx_ok_of_validOrPad c1 (hval c1 (by simp))
    obtain ⟨i2, e2⟩ := b64idx_ok_of_validOrPad c2 (hval c2 (by simp))
    obtain ⟨i3, e3⟩ := b64idx_ok_of_validOrPad c3 (hval c3 (by simp))
    obtain ⟨r, hr⟩ := ih (fun c hc => hval c (by simp [hc]))
    exact ⟨_, b64groups_cons_ok c0 c1 c2 c3 rest _ r
      (b64group_ok_of_idx c0 c1 c2 c3 i0 i1 i2 i3 e0 e1 e2 e3) hr⟩
  | case2 s hne =>
    intro _
    rcases s with _ | ⟨a, _ | ⟨b, _ | ⟨c, _ | ⟨d, es⟩⟩⟩⟩
    · exact ⟨[], rfl⟩
    · exact ⟨[], rfl⟩
    · exact ⟨[], rfl⟩
    · exact ⟨[], rfl⟩
    · exact (hne a b c d es rfl).elim

theorem b32groups_ok_of_validOrPad : ∀ s : List Char,
    (∀ c ∈ s, c = '=' ∨ find_index c base32_table ≠ none) →
    ∃ bs, b32groups s = .ok bs := by
  intro s
  induction s using b32groups.induct with
  | case1 c0 c1 c2 c3 c4 c5 c6 c7 rest ih =>
    intro hval
    obtain ⟨i0, e0⟩ := b32idx_ok_of_validOrPad c0 (hval c0 (by simp))
    obtain ⟨i1, e1⟩ := b32idx_ok_of_validOrPad c1 (hval c1 (by simp))
    obtain ⟨i2, e2⟩ := b32idx_ok_of_validOrPad c2 (hval c2 (by simp))
    obtain ⟨i3, e3⟩ := b32idx_ok_of_validOrPad c3 (hval c3 (by simp))
    obtain ⟨i4, e4⟩ := b32idx_ok_of_validOrPad c4 (hval c4 (by simp))
    obtain ⟨i5, e5⟩ := b32idx_ok_of_validOrPad c5 (hval c5 (by simp))
    obtain ⟨i6, e6⟩ := b32idx_ok_of_validOrPad c6 (hval c6 (by simp))
    obtain ⟨i7, e7⟩ := b32idx_ok_of_validOrPad c7 (hval c7 (by simp))
    obtain ⟨r, hr⟩ := ih (fun c hc => hval c (by simp [hc]))
    exact ⟨_, b32groups_cons_ok c0 c1 c2 c3 c4 c5 c6 c7 rest _ r
      (b32group_ok_of_idx c0 c1 c2 c3 c4 c5 c6 c7 i0 i1 i2 i3 i4 i5 i6 i7
        e0 e1 e2 e3 e4 e5 e6 e7) hr⟩
  | case2 s hne =>
    intro _
    rcases s with _ | ⟨a, _ | ⟨b, _ | ⟨c, _ | ⟨d, _ | ⟨e, _ | ⟨f, _ | ⟨g, _ | ⟨h, es⟩⟩⟩⟩⟩⟩⟩⟩
    · exact ⟨[], rfl⟩
    · exact ⟨[], rfl⟩
    · exact ⟨[], rfl⟩
    · exact ⟨[], rfl⟩
    · exact ⟨[], rfl⟩
    · exact ⟨[], rfl⟩
    · exact ⟨[], rfl⟩
    · exact ⟨[], rfl⟩
    · exact (hne a b c d e f g h es rfl).elim

/-- C10: the pad symbol `'='` is accepted in NON-final groups too: decoding
succeeds on any input drawn from the alphabet plus `'='` (no
`InvalidCharacterError` is raised for a pad anywhere); groups are decoded
independently, so a pad in a non-final group suppresses that group's bytes
exactly as it would in the final group; the pad contributes digit 0 to the
group value (replacing it by `'A'` = `table[0]` at an unchecked offset gives
the same result); and concretely,
`decode(Base64, "QQ==QQ==") = [65, 65]` and
`decode(Base32, "ME======ME======") = [97, 97]` both succeed. -/
theorem base32_base64_accept_nonfinal_pad :
    (∀ s : List Char, (∀ c ∈ s, c = '=' ∨ find_index c base64_table ≠ none) →
        ∃ bs, base64_decode s = .ok bs)
    ∧ (∀ s : List Char, (∀ c ∈ s, c = '=' ∨ find_index c base32_table ≠ none) →
        ∃ bs, base32_decode s = .ok bs)
    ∧ (∀ (c0 c1 c2 c3 : Char) (rest : List Char) (g r : List Nat),
        b64group c0 c1 c2 c3 = .ok g → b64groups rest = .ok r →
        b64groups (c0 :: c1 :: c2 :: c3 :: rest) = .ok (g ++ r))
    ∧ (∀ (c0 c1 c2 c3 c4 c5 c6 c7 : Char) (rest : List Char) (g r : List Nat),
        b32group c0 c1 c2 c3 c4 c5 c6 c7 = .ok g → b32groups rest = .ok r →
        b32groups (c0 :: c1 :: c2 :: c3 :: c4 :: c5 :: c6 :: c7 :: rest) = .ok (g ++ r))
    ∧ (∀ c1 c2 c3 : Char, b64group '=' c1 c2 c3 = b64group 'A' c1 c2 c3)
    ∧ (∀ c0 c2 c3 c4 c5 c6 c7 : Char,
        b32group c0 '=' c2 c3 c4 c5 c6 c7 = b32group c0 'A' c2 c3 c4 c5 c6 c7)
    ∧ base64_decode ['Q', 'Q', '=', '=', 'Q', 'Q', '=', '='] = .ok [65, 65]
    ∧ base32_decode ['M', 'E', '=', '=', '=', '=', '=', '=',
                     'M', 'E', '=', '=', '=', '=', '=', '='] = .ok [97, 97] := by
  refine ⟨?_, ?_, b64groups_cons_ok, b32groups_cons_ok, ?_, ?_, rfl, rfl⟩
  · intro s hval
    apply b64groups_ok_of_validOrPad
    intro c hc
    rcases List.mem_append.mp hc with h | h
    · exact hval c h
    · exact .inl (List.eq_of_mem_replicate h)
  · intro s hval
    apply b32groups_ok_of_validOrPad
    intro c hc
    rcases List.mem_append.mp hc with h | h
    · exact hval c h
    · exact .inl (List.eq_of_mem_replicate h)
  · intro c1 c2 c3
    unfold b64group
    rw [show b64idx '=' = .ok 0 from rfl, show b64idx 'A' = .ok 0 from rfl]
  · intro c0 c2 c3 c4 c5 c6 c7
    unfold b32group
    rw [show b32idx '=' = .ok 0 from rfl, show b32idx 'A' = .ok 0 from rfl]

/-- C10 witness: the hypothesised parts of `base32_base64_accept_nonfinal_pad`
at concrete inputs. -/
theorem base32_base64_accept_nonfinal_pad_witness :
    (∃ bs, base64_decode ['Q', '=', '=', '=', 'Q', 'Q', '=', '='] = .ok bs)
    ∧ (∃ bs, base32_decode ['M', '=', '=', '=', '=', '=', '=', '=', 'M', 'E'] = .ok bs)
    ∧ b64groups ['Q', 'Q', '=', '=', 'T', 'W', 'F', 'u'] = .ok ([65] ++ [77, 97, 110]) :=
  ⟨base32_base64_accept_nonfinal_pad.1 ['Q', '=', '=', '=', 'Q', 'Q', '=', '=']
      (by decide),
   base32_base64_accept_nonfinal_pad.2.1 ['M', '=', '=', '=', '=', '=', '=', '=', 'M', 'E']
      (by decide),
   base32_base64_accept_nonfinal_pad.2.2.1 'Q' 'Q' '=' '=' ['T', 'W', 'F', 'u']
      [65] [77, 97, 110] rfl rfl⟩

/-! ### Claim C1 — round trips -/

theorem base16_encode_cons (b : Nat) (rest : List Nat) :
    base16_encode (b :: rest)
      = sym base16_table (b / 2 ^ 4 % 16) :: sym base16_table (b % 16)
        :: base16_encode rest := rfl

theorem base16_encode_length (P : List Nat) :
    (base16_encode P).length = 2 * P.length := by
  induction P with
  | nil => rfl
  | cons b rest ih =>
    rw [base16_encode_cons]
    simp only [List.length_cons, ih]
    omega

theorem b16pairs_encode (P : List Nat) (h : ∀ b ∈ P, b < 256) :
    b16pairs (base16_encode P) = .ok P := by
  induction P with
  | nil => rfl
  | cons b rest ih =>
    have hb : b < 256 := h b (by simp)
    have hrest := ih (fun x hx => h x (by simp [hx]))
    have hbyte : b / 2 ^ 4 % 16 * 2 ^ 4 + b % 16 = b := by omega
    rw [base16_encode_cons]
    have hf1 := find16_sym (b / 2 ^ 4 % 16) (by omega)
    have hf2 := find16_sym (b % 16) (by omega)
    simp only [b16pairs, hf1, hf2]
    simp [hrest, Except.map]
    omega

theorem base16_roundtrip (P : List Nat) (h : ∀ b ∈ P, b < 256) :
    base16_decode (base16_encode P) = .ok P := by
  unfold base16_decode
  rw [if_neg (by rw [base16_encode_length]; omega)]
  exact b16pairs_encode P h

theorem padInput_of_mod (n : Nat) (s : List Char) (h : s.length % n = 0) :
    padInput n s = s := by
  unfold padInput
  rw [h, Nat.sub_zero, Nat.mod_self]
  simp

theorem b64groups_encode (P : List Nat) (h : ∀ b ∈ P, b < 256) :
    b64groups (base64_encode P) = .ok P := by
  induction P using base64_encode.induct with
  | case1 => rfl
  | case2 b0 =>
    have hb0 : b0 < 256 := h b0 (by simp)
    show b64groups
      (sym base64_table (b0 * 2 ^ 16 / 2 ^ 18 % 64)
        :: sym base64_table (b0 * 2 ^ 16 / 2 ^ 12 % 64) :: '=' :: '=' :: []) = _
    have hg := b64group_yield_pad2
      (sym base64_table (b0 * 2 ^ 16 / 2 ^ 18 % 64))
      (sym base64_table (b0 * 2 ^ 16 / 2 ^ 12 % 64))
      (b0 * 2 ^ 16 / 2 ^ 18 % 64) (b0 * 2 ^ 16 / 2 ^ 12 % 64)
      (find64_sym _ (by omega)) (find64_sym _ (by omega))
    have := b64groups_cons_ok _ _ _ _ [] _ [] hg rfl
    rw [this]
    have : (b0 * 2 ^ 16 / 2 ^ 18 % 64 * 2 ^ 18 + b0 * 2 ^ 16 / 2 ^ 12 % 64 * 2 ^ 12
        + 0 * 2 ^ 6 + 0) / 2 ^ 16 % 256 = b0 := by omega
    rw [List.append_nil, this]
  | case3 b0 b1 =>
    have hb0 : b0 < 256 := h b0 (by simp)
    have hb1 : b1 < 256 := h b1 (by simp)
    show b64groups
      (sym base64_table ((b0 * 2 ^ 16 + b1 * 2 ^ 8) / 2 ^ 18 % 64)
        :: sym base64_table ((b0 * 2 ^ 16 + b1 * 2 ^ 8) / 2 ^ 12 % 64)
        :: sym base64_table ((b0 * 2 ^ 16 + b1 * 2 ^ 8) / 2 ^ 6 % 64) :: '=' :: []) = _
    have hg := b64group_yield_pad1
      (sym base64_table ((b0 * 2 ^ 16 + b1 * 2 ^ 8) / 2 ^ 18 % 64))
      (sym base64_table ((b0 * 2 ^ 16 + b1 * 2 ^ 8) / 2 ^ 12 % 64))
      (sym base64_table ((b0 * 2 ^ 16 + b1 * 2 ^ 8) / 2 ^ 6 % 64))
      ((b0 * 2 ^ 16 + b1 * 2 ^ 8) / 2 ^ 18 % 64)
      ((b0 * 2 ^ 16 + b1 * 2 ^ 8) / 2 ^ 12 % 64)
      ((b0 * 2 ^ 16 + b1 * 2 ^ 8) / 2 ^ 6 % 64)
      (find64_sym _ (by omega)) (find64_sym _ (by omega)) (find64_sym _ (by omega))
    have hc := b64groups_cons_ok _ _ _ _ [] _ [] hg rfl
    rw [hc]
    have h1 : ((b0 * 2 ^ 16 + b1 * 2 ^ 8) / 2 ^ 18 % 64 * 2 ^ 18
        + (b0 * 2 ^ 16 + b1 * 2 ^ 8) / 2 ^ 12 % 64 * 2 ^ 12
        + (b0 * 2 ^ 16 + b1 * 2 ^ 8) / 2 ^ 6 % 64 * 2 ^ 6 + 0) / 2 ^ 16 % 256 = b0 := by
      omega
    have h2 : ((b0 * 2 ^ 16 + b1 * 2 ^ 8) / 2 ^ 18 % 64 * 2 ^ 18
        + (b0 * 2 ^ 16 + b1 * 2 ^ 8) / 2 ^ 12 % 64 * 2 ^ 12
        + (b0 * 2 ^ 16 + b1 * 2 ^ 8) / 2 ^ 6 % 64 * 2 ^ 6 + 0) / 2 ^ 8 % 256 = b1 := by
      omega
    rw [List.append_nil, h1, h2]
  | case4 b0 b1 b2 rest ih =>
    have hb0 : b0 < 256 := h b0 (by simp)
    have hb1 : b1 < 256 := h b1 (by simp)
    have hb2 : b2 < 256 := h b2 (by simp)
    have hrest := ih (fun x hx => h x (by simp [hx]))
    show b64groups
      (sym base64_table ((b0 * 2 ^ 16 + b1 * 2 ^ 8 + b2) / 2 ^ 18 % 64)
        :: sym base64_table ((b0 * 2 ^ 16 + b1 * 2 ^ 8 + b2) / 2 ^ 12 % 64)
        :: sym base64_table ((b0 * 2 ^ 16 + b1 * 2 ^ 8 + b2) / 2 ^ 6 % 64)
        :: sym base64_table ((b0 * 2 ^ 16 + b1 * 2 ^ 8 + b2) % 64)
        :: base64_encode rest) = _
    have hg := b64group_yield_full
      (sym base64_table ((b0 * 2 ^ 16 + b1 * 2 ^ 8 + b2) / 2 ^ 18 % 64))
      (sym base64_table ((b0 * 2 ^ 16 + b1 * 2 ^ 8 + b2) / 2 ^ 12 % 64))
      (sym base64_table ((b0 * 2 ^ 16 + b1 * 2 ^ 8 + b2) / 2 ^ 6 % 64))
      (sym base64_table ((b0 * 2 ^ 16 + b1 * 2 ^ 8 + b2) % 64))
      ((b0 * 2 ^ 16 + b1 * 2 ^ 8 + b2) / 2 ^ 18 % 64)
      ((b0 * 2 ^ 16 + b1 * 2 ^ 8 + b2) / 2 ^ 12 % 64)
      ((b0 * 2 ^ 16 + b1 * 2 ^ 8 + b2) / 2 ^ 6 % 64)
      ((b0 * 2 ^ 16 + b1 * 2 ^ 8 + b2) % 64)
      (find64_sym _ (by omega)) (find64_sym _ (by omega))
      (find64_sym _ (by omega)) (find64_sym _ (by omega))
    have hc := b64groups_cons_ok _ _ _ _ (base64_encode rest) _ rest hg hrest
    rw [hc]
    have h1 : ((b0 * 2 ^ 16 + b1 * 2 ^ 8 + b2) / 2 ^ 18 % 64 * 2 ^ 18
        + (b0 * 2 ^ 16 + b1 * 2 ^ 8 + b2) / 2 ^ 12 % 64 * 2 ^ 12
        + (b0 * 2 ^ 16 + b1 * 2 ^ 8 + b2) / 2 ^ 6 % 64 * 2 ^ 6
        + (b0 * 2 ^ 16 + b1 * 2 ^ 8 + b2) % 64) / 2 ^ 16 % 256 = b0 := by omega
    have h2 : ((b0 * 2 ^ 16 + b1 * 2 ^ 8 + b2) / 2 ^ 18 % 64 * 2 ^ 18
        + (b0 * 2 ^ 16 + b1 * 2 ^ 8 + b2) / 2 ^ 12 % 64 * 2 ^ 12
        + (b0 * 2 ^ 16 + b1 * 2 ^ 8 + b2) / 2 ^ 6 % 64 * 2 ^ 6
        + (b0 * 2 ^ 16 + b1 * 2 ^ 8 + b2) % 64) / 2 ^ 8 % 256 = b1 := by omega
    have h3 : ((b0 * 2 ^ 16 + b1 * 2 ^ 8 + b2) / 2 ^ 18 % 64 * 2 ^ 18
        + (b0 * 2 ^ 16 + b1 * 2 ^ 8 + b2) / 2 ^ 12 % 64 * 2 ^ 12
        + (b0 * 2 ^ 16 + b1 * 2 ^ 8 + b2) / 2 ^ 6 % 64 * 2 ^ 6
        + (b0 * 2 ^ 16 + b1 * 2 ^ 8 + b2) % 64) % 256 = b2 := by omega
    rw [h1, h2, h3]
    rfl

theorem base64_roundtrip (P : List Nat) (h : ∀ b ∈ P, b < 256) :
    base64_decode (base64_encode P) = .ok P := by
  show b64groups (padInput 4 (base64_encode P)) = _
  rw [padInput_of_mod 4 _ (by rw [base64_encode_shape.1 P]; omega)]
  exact b64groups_encode P h

/-! ### The Base32 round trip (`bit_count` congruence and 5-byte blocks) -/

set_option maxHeartbeats 1000000

/-- One byte step of `b32loop`, unfolded (`let`s zeta-reduced). -/
theorem b32loop_step (b : Nat) (rest : List Nat) (val bc : Nat) :
    b32loop (b :: rest) val bc
      = (emit32 ((val * 2 ^ 8) % 2 ^ 32 + b % 2 ^ 8) (bc + 8)).1
        ++ b32loop rest ((val * 2 ^ 8) % 2 ^ 32 + b % 2 ^ 8)
            (emit32 ((val * 2 ^ 8) % 2 ^ 32 + b % 2 ^ 8) (bc + 8)).2 := rfl

theorem b32loop_step0 (b : Nat) (rest : List Nat) (val : Nat) :
    b32loop (b :: rest) val 0
      = (emit32 ((val * 2 ^ 8) % 2 ^ 32 + b % 2 ^ 8) 8).1
        ++ b32loop rest ((val * 2 ^ 8) % 2 ^ 32 + b % 2 ^ 8)
            (emit32 ((val * 2 ^ 8) % 2 ^ 32 + b % 2 ^ 8) 8).2 := rfl

theorem b32loop_step3 (b : Nat) (rest : List Nat) (val : Nat) :
    b32loop (b :: rest) val 3
      = (emit32 ((val * 2 ^ 8) % 2 ^ 32 + b % 2 ^ 8) 11).1
        ++ b32loop rest ((val * 2 ^ 8) % 2 ^ 32 + b % 2 ^ 8)
            (emit32 ((val * 2 ^ 8) % 2 ^ 32 + b % 2 ^ 8) 11).2 := rfl

theorem b32loop_step1 (b : Nat) (rest : List Nat) (val : Nat) :
    b32loop (b :: rest) val 1
      = (emit32 ((val * 2 ^ 8) % 2 ^ 32 + b % 2 ^ 8) 9).1
        ++ b32loop rest ((val * 2 ^ 8) % 2 ^ 32 + b % 2 ^ 8)
            (emit32 ((val * 2 ^ 8) % 2 ^ 32 + b % 2 ^ 8) 9).2 := rfl

theorem b32loop_step4 (b : Nat) (rest : List Nat) (val : Nat) :
    b32loop (b :: rest) val 4
      = (emit32 ((val * 2 ^ 8) % 2 ^ 32 + b % 2 ^ 8) 12).1
        ++ b32loop rest ((val * 2 ^ 8) % 2 ^ 32 + b % 2 ^ 8)
            (emit32 ((val * 2 ^ 8) % 2 ^ 32 + b % 2 ^ 8) 12).2 := rfl

theorem b32loop_step2 (b : Nat) (rest : List Nat) (val : Nat) :
    b32loop (b :: rest) val 2
      = (emit32 ((val * 2 ^ 8) % 2 ^ 32 + b % 2 ^ 8) 10).1
        ++ b32loop rest ((val * 2 ^ 8) % 2 ^ 32 + b % 2 ^ 8)
            (emit32 ((val * 2 ^ 8) % 2 ^ 32 + b % 2 ^ 8) 10).2 := rfl

theorem emit32_8_fst (v : Nat) :
    (emit32 v 8).1 = [sym base32_table (v / 2 ^ 3 % 32)] := rfl

theorem emit32_8_snd (v : Nat) : (emit32 v 8).2 = 3 := rfl

theorem emit32_11_fst (v : Nat) :
    (emit32 v 11).1
      = [sym base32_table (v / 2 ^ 6 % 32), sym base32_table (v / 2 ^ 1 % 32)] := rfl

theorem emit32_11_snd (v : Nat) : (emit32 v 11).2 = 1 := rfl

theorem emit32_9_fst (v : Nat) :
    (emit32 v 9).1 = [sym base32_table (v / 2 ^ 4 % 32)] := rfl

theorem emit32_9_snd (v : Nat) : (emit32 v 9).2 = 4 := rfl

theorem emit32_12_fst (v : Nat) :
    (emit32 v 12).1
      = [sym base32_table (v / 2 ^ 7 % 32), sym base32_table (v / 2 ^ 2 % 32)] := rfl

theorem emit32_12_snd (v : Nat) : (emit32 v 12).2 = 2 := rfl

theorem emit32_10_fst (v : Nat) :
    (emit32 v 10).1
      = [sym base32_table (v / 2 ^ 5 % 32), sym base32_table (v / 2 ^ 0 % 32)] := rfl

theorem emit32_10_snd (v : Nat) : (emit32 v 10).2 = 0 := rfl

/-- The emission loop depends on `val` only through its low `bc` bits. -/
theorem emit32Go_congr (v w : Nat) : ∀ fuel bc, v % 2 ^ bc = w % 2 ^ bc →
    emit32Go v bc fuel = emit32Go w bc fuel := by
  intro fuel
  induction fuel with
  | zero => intro bc h; rfl
  | succ n ih =>
    intro bc h
    by_cases h5 : 5 ≤ bc
    · have hbc : 2 ^ (bc - 5) * 32 = 2 ^ bc := by
        have h32 : (32 : Nat) = 2 ^ 5 := rfl
        rw [h32, ← pow_add, Nat.sub_add_cancel h5]
      have hd : v / 2 ^ (bc - 5) % 32 = w / 2 ^ (bc - 5) % 32 := by
        rw [← Nat.mod_mul_right_div_self, ← Nat.mod_mul_right_div_self, hbc, h]
      have hdvd : (2 : Nat) ^ (bc - 5) ∣ 2 ^ bc := pow_dvd_pow 2 (Nat.sub_le bc 5)
      have hr : v % 2 ^ (bc - 5) = w % 2 ^ (bc - 5) := by
        rw [← Nat.mod_mod_of_dvd v hdvd, ← Nat.mod_mod_of_dvd w hdvd, h]
      simp only [emit32Go, if_pos h5]
      rw [hd, ih (bc - 5) hr]
    · simp only [emit32Go, if_neg h5]

/-- The byte loop depends on the carried `val` only through its low `bc` bits
(`bc < 5` between byte steps). -/
theorem b32loop_congr : ∀ (input : List Nat) (v w bc : Nat), bc < 5 →
    v % 2 ^ bc = w % 2 ^ bc → b32loop input v bc = b32loop input w bc := by
  intro input
  induction input with
  | nil =>
    intro v w bc hbc h
    show (if 0 < bc then [sym base32_table (v * 2 ^ (5 - bc) % 32)] else [])
      = (if 0 < bc then [sym base32_table (w * 2 ^ (5 - bc) % 32)] else [])
    by_cases h0 : 0 < bc
    · rw [if_pos h0, if_pos h0]
      have h32 : (2 : Nat) ^ bc * 2 ^ (5 - bc) = 32 := by
        rw [← pow_add, Nat.add_sub_cancel' (le_of_lt hbc)]
        rfl
      have : v * 2 ^ (5 - bc) % 32 = w * 2 ^ (5 - bc) % 32 := by
        rw [← h32, Nat.mul_mod_mul_right, Nat.mul_mod_mul_right, h]
      rw [this]
    · rw [if_neg h0, if_neg h0]
  | cons b rest ih =>
    intro v w bc hbc h
    have h8 : (2 : Nat) ^ (bc + 8) ∣ 2 ^ 32 := pow_dvd_pow 2 (by omega)
    have hlane : ∀ u : Nat, (u * 2 ^ 8) % 2 ^ 32 % 2 ^ (bc + 8) = u % 2 ^ bc * 2 ^ 8 := by
      intro u
      rw [Nat.mod_mod_of_dvd _ h8, pow_add, Nat.mul_mod_mul_right]
    have hAB : ((v * 2 ^ 8) % 2 ^ 32 + b % 2 ^ 8) % 2 ^ (bc + 8)
        = ((w * 2 ^ 8) % 2 ^ 32 + b % 2 ^ 8) % 2 ^ (bc + 8) := by
      rw [Nat.add_mod ((v * 2 ^ 8) % 2 ^ 32), Nat.add_mod ((w * 2 ^ 8) % 2 ^ 32),
        hlane v, hlane w, h]
    have hemit : emit32 ((v * 2 ^ 8) % 2 ^ 32 + b % 2 ^ 8) (bc + 8)
        = emit32 ((w * 2 ^ 8) % 2 ^ 32 + b % 2 ^ 8) (bc + 8) :=
      emit32Go_congr _ _ (bc + 8) (bc + 8) hAB
    rw [b32loop_step, b32loop_step, hemit]
    have hsnd : (emit32 ((w * 2 ^ 8) % 2 ^ 32 + b % 2 ^ 8) (bc + 8)).2 = (bc + 8) % 5 :=
      (emit32Go_spec _ (bc + 8) (bc + 8) le_rfl).2
    rw [hsnd]
    have htail : b32loop rest ((v * 2 ^ 8) % 2 ^ 32 + b % 2 ^ 8) ((bc + 8) % 5)
        = b32loop rest ((w * 2 ^ 8) % 2 ^ 32 + b % 2 ^ 8) ((bc + 8) % 5) := by
      apply ih _ _ _ (by omega)
      have hdvd : (2 : Nat) ^ ((bc + 8) % 5) ∣ 2 ^ (bc + 8) :=
        pow_dvd_pow 2 (by omega)
      have hmm : ((v * 2 ^ 8) % 2 ^ 32 + b % 2 ^ 8) % 2 ^ (bc + 8) % 2 ^ ((bc + 8) % 5)
          = ((w * 2 ^ 8) % 2 ^ 32 + b % 2 ^ 8) % 2 ^ (bc + 8) % 2 ^ ((bc + 8) % 5) := by
        rw [hAB]
      rw [Nat.mod_mod_of_dvd _ hdvd, Nat.mod_mod_of_dvd _ hdvd] at hmm
      exact hmm
    rw [htail]

/-- Five full input bytes starting at an aligned state produce eight symbols:
the base-32 digits of the 40-bit big-endian value of the block. -/
theorem b32loop_block5 (b0 b1 b2 b3 b4 : Nat) (rest : List Nat)
    (h0 : b0 < 256) (h1 : b1 < 256) (h2 : b2 < 256) (h3 : b3 < 256) (h4 : b4 < 256) :
    b32loop (b0 :: b1 :: b2 :: b3 :: b4 :: rest) 0 0
      = sym base32_table ((b0 * 2 ^ 32 + b1 * 2 ^ 24 + b2 * 2 ^ 16 + b3 * 2 ^ 8 + b4) / 2 ^ 35 % 32)
        :: sym base32_table ((b0 * 2 ^ 32 + b1 * 2 ^ 24 + b2 * 2 ^ 16 + b3 * 2 ^ 8 + b4) / 2 ^ 30 % 32)
        :: sym base32_table ((b0 * 2 ^ 32 + b1 * 2 ^ 24 + b2 * 2 ^ 16 + b3 * 2 ^ 8 + b4) / 2 ^ 25 % 32)
        :: sym base32_table ((b0 * 2 ^ 32 + b1 * 2 ^ 24 + b2 * 2 ^ 16 + b3 * 2 ^ 8 + b4) / 2 ^ 20 % 32)
        :: sym base32_table ((b0 * 2 ^ 32 + b1 * 2 ^ 24 + b2 * 2 ^ 16 + b3 * 2 ^ 8 + b4) / 2 ^ 15 % 32)
        :: sym base32_table ((b0 * 2 ^ 32 + b1 * 2 ^ 24 + b2 * 2 ^ 16 + b3 * 2 ^ 8 + b4) / 2 ^ 10 % 32)
        :: sym base32_table ((b0 * 2 ^ 32 + b1 * 2 ^ 24 + b2 * 2 ^ 16 + b3 * 2 ^ 8 + b4) / 2 ^ 5 % 32)
        :: sym base32_table ((b0 * 2 ^ 32 + b1 * 2 ^ 24 + b2 * 2 ^ 16 + b3 * 2 ^ 8 + b4) % 32)
        :: b32loop rest ((b0 * 2 ^ 32 + b1 * 2 ^ 24 + b2 * 2 ^ 16 + b3 * 2 ^ 8 + b4) % 2 ^ 32) 0 := by
  have hA : ((0 : Nat) * 2 ^ 8) % 2 ^ 32 + b0 % 2 ^ 8 = b0 := by omega
  rw [b32loop_step0, hA, emit32_8_fst, emit32_8_snd]
  have hB : (b0 * 2 ^ 8) % 2 ^ 32 + b1 % 2 ^ 8 = b0 * 2 ^ 8 + b1 := by omega
  rw [b32loop_step3, hB, emit32_11_fst, emit32_11_snd]
  have hC : ((b0 * 2 ^ 8 + b1) * 2 ^ 8) % 2 ^ 32 + b2 % 2 ^ 8
      = b0 * 2 ^ 16 + b1 * 2 ^ 8 + b2 := by omega
  rw [b32loop_step1, hC, emit32_9_fst, emit32_9_snd]
  have hD : ((b0 * 2 ^ 16 + b1 * 2 ^ 8 + b2) * 2 ^ 8) % 2 ^ 32 + b3 % 2 ^ 8
      = b0 * 2 ^ 24 + b1 * 2 ^ 16 + b2 * 2 ^ 8 + b3 := by omega
  rw [b32loop_step4, hD, emit32_12_fst, emit32_12_snd]
  have hE : ((b0 * 2 ^ 24 + b1 * 2 ^ 16 + b2 * 2 ^ 8 + b3) * 2 ^ 8) % 2 ^ 32 + b4 % 2 ^ 8
      = (b0 * 2 ^ 32 + b1 * 2 ^ 24 + b2 * 2 ^ 16 + b3 * 2 ^ 8 + b4) % 2 ^ 32 := by omega
  rw [b32loop_step2, hE, emit32_10_fst, emit32_10_snd]
  have hi0 : b0 / 2 ^ 3 % 32
      = (b0 * 2 ^ 32 + b1 * 2 ^ 24 + b2 * 2 ^ 16 + b3 * 2 ^ 8 + b4) / 2 ^ 35 % 32 := by omega
  have hi1 : (b0 * 2 ^ 8 + b1) / 2 ^ 6 % 32
      = (b0 * 2 ^ 32 + b1 * 2 ^ 24 + b2 * 2 ^ 16 + b3 * 2 ^ 8 + b4) / 2 ^ 30 % 32 := by omega
  have hi2 : (b0 * 2 ^ 8 + b1) / 2 ^ 1 % 32
      = (b0 * 2 ^ 32 + b1 * 2 ^ 24 + b2 * 2 ^ 16 + b3 * 2 ^ 8 + b4) / 2 ^ 25 % 32 := by omega
  have hi3 : (b0 * 2 ^ 16 + b1 * 2 ^ 8 + b2) / 2 ^ 4 % 32
      = (b0 * 2 ^ 32 + b1 * 2 ^ 24 + b2 * 2 ^ 16 + b3 * 2 ^ 8 + b4) / 2 ^ 20 % 32 := by omega
  have hi4 : (b0 * 2 ^ 24 + b1 * 2 ^ 16 + b2 * 2 ^ 8 + b3) / 2 ^ 7 % 32
      = (b0 * 2 ^ 32 + b1 * 2 ^ 24 + b2 * 2 ^ 16 + b3 * 2 ^ 8 + b4) / 2 ^ 15 % 32 := by omega
  have hi5 : (b0 * 2 ^ 24 + b1 * 2 ^ 16 + b2 * 2 ^ 8 + b3) / 2 ^ 2 % 32
      = (b0 * 2 ^ 32 + b1 * 2 ^ 24 + b2 * 2 ^ 16 + b3 * 2 ^ 8 + b4) / 2 ^ 10 % 32 := by omega
  have hi6 : (b0 * 2 ^ 32 + b1 * 2 ^ 24 + b2 * 2 ^ 16 + b3 * 2 ^ 8 + b4) % 2 ^ 32 / 2 ^ 5 % 32
      = (b0 * 2 ^ 32 + b1 * 2 ^ 24 + b2 * 2 ^ 16 + b3 * 2 ^ 8 + b4) / 2 ^ 5 % 32 := by omega
  have hi7 : (b0 * 2 ^ 32 + b1 * 2 ^ 24 + b2 * 2 ^ 16 + b3 * 2 ^ 8 + b4) % 2 ^ 32 / 2 ^ 0 % 32
      = (b0 * 2 ^ 32 + b1 * 2 ^ 24 + b2 * 2 ^ 16 + b3 * 2 ^ 8 + b4) % 32 := by omega
  rw [hi0, hi1, hi2, hi3, hi4, hi5, hi6, hi7]
  simp only [List.cons_append, List.nil_append]

theorem b32loop_tail1 (b0 : Nat) (h0 : b0 < 256) :
    b32loop [b0] 0 0
      = [sym base32_table (b0 / 2 ^ 3 % 32), sym base32_table (b0 * 2 ^ 2 % 32)] := by
  have hA : ((0 : Nat) * 2 ^ 8) % 2 ^ 32 + b0 % 2 ^ 8 = b0 := by omega
  rw [b32loop_step0, hA, emit32_8_fst, emit32_8_snd]
  rfl

theorem b32loop_tail2 (b0 b1 : Nat) (h0 : b0 < 256) (h1 : b1 < 256) :
    b32loop [b0, b1] 0 0
      = [sym base32_table (b0 / 2 ^ 3 % 32),
         sym base32_table ((b0 * 2 ^ 8 + b1) / 2 ^ 6 % 32),
         sym base32_table ((b0 * 2 ^ 8 + b1) / 2 ^ 1 % 32),
         sym base32_table ((b0 * 2 ^ 8 + b1) * 2 ^ 4 % 32)] := by
  have hA : ((0 : Nat) * 2 ^ 8) % 2 ^ 32 + b0 % 2 ^ 8 = b0 := by omega
  rw [b32loop_step0, hA, emit32_8_fst, emit32_8_snd]
  have hB : (b0 * 2 ^ 8) % 2 ^ 32 + b1 % 2 ^ 8 = b0 * 2 ^ 8 + b1 := by omega
  rw [b32loop_step3, hB, emit32_11_fst, emit32_11_snd]
  rfl

theorem b32loop_tail3 (b0 b1 b2 : Nat) (h0 : b0 < 256) (h1 : b1 < 256) (h2 : b2 < 256) :
    b32loop [b0, b1, b2] 0 0
      = [sym base32_table (b0 / 2 ^ 3 % 32),
         sym base32_table ((b0 * 2 ^ 8 + b1) / 2 ^ 6 % 32),
         sym base32_table ((b0 * 2 ^ 8 + b1) / 2 ^ 1 % 32),
         sym base32_table ((b0 * 2 ^ 16 + b1 * 2 ^ 8 + b2) / 2 ^ 4 % 32),
         sym base32_table ((b0 * 2 ^ 16 + b1 * 2 ^ 8 + b2) * 2 ^ 1 % 32)] := by
  have hA : ((0 : Nat) * 2 ^ 8) % 2 ^ 32 + b0 % 2 ^ 8 = b0 := by omega
  rw [b32loop_step0, hA, emit32_8_fst, emit32_8_snd]
  have hB : (b0 * 2 ^ 8) % 2 ^ 32 + b1 % 2 ^ 8 = b0 * 2 ^ 8 + b1 := by omega
  rw [b32loop_step3, hB, emit32_11_fst, emit32_11_snd]
  have hC : ((b0 * 2 ^ 8 + b1) * 2 ^ 8) % 2 ^ 32 + b2 % 2 ^ 8
      = b0 * 2 ^ 16 + b1 * 2 ^ 8 + b2 := by omega
  rw [b32loop_step1, hC, emit32_9_fst, emit32_9_snd]
  rfl

/-- `padInput` distributes over a leading full 8-symbol group. -/
theorem padInput8_cons8 (c0 c1 c2 c3 c4 c5 c6 c7 : Char) (t : List Char) :
    padInput 8 (c0 :: c1 :: c2 :: c3 :: c4 :: c5 :: c6 :: c7 :: t)
      = c0 :: c1 :: c2 :: c3 :: c4 :: c5 :: c6 :: c7 :: padInput 8 t := by
  unfold padInput
  simp only [List.length_cons, List.cons_append]
  have hmod : (8 - (t.length + 1 + 1 + 1 + 1 + 1 + 1 + 1 + 1) % 8) % 8
      = (8 - t.length % 8) % 8 := by omega
  rw [hmod]

theorem padInput8_2 (a b : Char) :
    padInput 8 [a, b] = [a, b, '=', '=', '=', '=', '=', '='] := rfl

theorem padInput8_4 (a b c d : Char) :
    padInput 8 [a, b, c, d] = [a, b, c, d, '=', '=', '=', '='] := rfl

theorem padInput8_5 (a b c d e : Char) :
    padInput 8 [a, b, c, d, e] = [a, b, c, d, e, '=', '=', '='] := rfl

/-- The number of 5-byte blocks `base32_encode` consumes (the final short
block counts as one); its recursion pattern drives the round-trip induction. -/
def fiveChunks : List Nat → Nat
  | [] => 0
  | [_] => 1
  | [_, _] => 1
  | [_, _, _] => 1
  | [_, _, _, _] => 1
  | _ :: _ :: _ :: _ :: _ :: rest => 1 + fiveChunks rest

/-- Base-32 digit reconstruction of a 40-bit value. -/
theorem b32digits_val (V : Nat) (hV : V < 2 ^ 40) :
    V / 2 ^ 35 % 32 * 2 ^ 35 + V / 2 ^ 30 % 32 * 2 ^ 30 + V / 2 ^ 25 % 32 * 2 ^ 25
      + V / 2 ^ 20 % 32 * 2 ^ 20 + V / 2 ^ 15 % 32 * 2 ^ 15 + V / 2 ^ 10 % 32 * 2 ^ 10
      + V / 2 ^ 5 % 32 * 2 ^ 5 + V % 32 = V := by
  omega

theorem b32groups_encode (P : List Nat) (h : ∀ b ∈ P, b < 256)
    (hlen : P.length % 5 ≠ 4) :
    b32groups (padInput 8 (base32_encode P)) = .ok P := by
  induction P using fiveChunks.induct with
  | case1 => rfl
  | case2 b0 =>
    have hb0 : b0 < 256 := h b0 (by simp)
    show b32groups (padInput 8 (b32loop [b0] 0 0)) = _
    rw [b32loop_tail1 b0 hb0, padInput8_2]
    have hg := b32group_yield_1 _ _ (b0 / 2 ^ 3 % 32) (b0 * 2 ^ 2 % 32)
      (find32_sym _ (by omega)) (find32_sym _ (by omega))
    have hc := b32groups_cons_ok _ _ _ _ _ _ _ _ [] _ [] hg rfl
    rw [hc]
    have hbyte : (b0 / 2 ^ 3 % 32 * 2 ^ 35 + b0 * 2 ^ 2 % 32 * 2 ^ 30 + 0 * 2 ^ 25
        + 0 * 2 ^ 20 + 0 * 2 ^ 15 + 0 * 2 ^ 10 + 0 * 2 ^ 5 + 0) / 2 ^ 32 % 256 = b0 := by
      omega
    rw [List.append_nil, hbyte]
  | case3 b0 b1 =>
    have hb0 : b0 < 256 := h b0 (by simp)
    have hb1 : b1 < 256 := h b1 (by simp)
    show b32groups (padInput 8 (b32loop [b0, b1] 0 0)) = _
    rw [b32loop_tail2 b0 b1 hb0 hb1, padInput8_4]
    have hg := b32group_yield_2 _ _ _ _ (b0 / 2 ^ 3 % 32)
      ((b0 * 2 ^ 8 + b1) / 2 ^ 6 % 32) ((b0 * 2 ^ 8 + b1) / 2 ^ 1 % 32)
      ((b0 * 2 ^ 8 + b1) * 2 ^ 4 % 32)
      (find32_sym _ (by omega)) (find32_sym _ (by omega))
      (find32_sym _ (by omega)) (find32_sym _ (by omega))
    have hc := b32groups_cons_ok _ _ _ _ _ _ _ _ [] _ [] hg rfl
    rw [hc]
    have hbyte0 : (b0 / 2 ^ 3 % 32 * 2 ^ 35 + (b0 * 2 ^ 8 + b1) / 2 ^ 6 % 32 * 2 ^ 30
        + (b0 * 2 ^ 8 + b1) / 2 ^ 1 % 32 * 2 ^ 25 + (b0 * 2 ^ 8 + b1) * 2 ^ 4 % 32 * 2 ^ 20
        + 0 * 2 ^ 15 + 0 * 2 ^ 10 + 0 * 2 ^ 5 + 0) / 2 ^ 32 % 256 = b0 := by omega
    have hbyte1 : (b0 / 2 ^ 3 % 32 * 2 ^ 35 + (b0 * 2 ^ 8 + b1) / 2 ^ 6 % 32 * 2 ^ 30
        + (b0 * 2 ^ 8 + b1) / 2 ^ 1 % 32 * 2 ^ 25 + (b0 * 2 ^ 8 + b1) * 2 ^ 4 % 32 * 2 ^ 20
        + 0 * 2 ^ 15 + 0 * 2 ^ 10 + 0 * 2 ^ 5 + 0) / 2 ^ 24 % 256 = b1 := by omega
    rw [List.append_nil, hbyte0, hbyte1]
  | case4 b0 b1 b2 =>
    have hb0 : b0 < 256 := h b0 (by simp)
    have hb1 : b1 < 256 := h b1 (by simp)
    have hb2 : b2 < 256 := h b2 (by simp)
    show b32groups (padInput 8 (b32loop [b0, b1, b2] 0 0)) = _
    rw [b32loop_tail3 b0 b1 b2 hb0 hb1 hb2, padInput8_5]
    have hg := b32group_yield_3 _ _ _ _ _ (b0 / 2 ^ 3 % 32)
      ((b0 * 2 ^ 8 + b1) / 2 ^ 6 % 32) ((b0 * 2 ^ 8 + b1) / 2 ^ 1 % 32)
      ((b0 * 2 ^ 16 + b1 * 2 ^ 8 + b2) / 2 ^ 4 % 32)
      ((b0 * 2 ^ 16 + b1 * 2 ^ 8 + b2) * 2 ^ 1 % 32)
      (find32_sym _ (by omega)) (find32_sym _ (by omega)) (find32_sym _ (by omega))
      (find32_sym _ (by omega)) (find32_sym _ (by omega))
    have hc := b32groups_cons_ok _ _ _ _ _ _ _ _ [] _ [] hg rfl
    rw [hc]
    have hbyte0 : (b0 / 2 ^ 3 % 32 * 2 ^ 35 + (b0 * 2 ^ 8 + b1) / 2 ^ 6 % 32 * 2 ^ 30
        + (b0 * 2 ^ 8 + b1) / 2 ^ 1 % 32 * 2 ^ 25
        + (b0 * 2 ^ 16 + b1 * 2 ^ 8 + b2) / 2 ^ 4 % 32 * 2 ^ 20
        + (b0 * 2 ^ 16 + b1 * 2 ^ 8 + b2) * 2 ^ 1 % 32 * 2 ^ 15
        + 0 * 2 ^ 10 + 0 * 2 ^ 5 + 0) / 2 ^ 32 % 256 = b0 := by omega
    have hbyte1 : (b0 / 2 ^ 3 % 32 * 2 ^ 35 + (b0 * 2 ^ 8 + b1) / 2 ^ 6 % 32 * 2 ^ 30
        + (b0 * 2 ^ 8 + b1) / 2 ^ 1 % 32 * 2 ^ 25
        + (b0 * 2 ^ 16 + b1 * 2 ^ 8 + b2) / 2 ^ 4 % 32 * 2 ^ 20
        + (b0 * 2 ^ 16 + b1 * 2 ^ 8 + b2) * 2 ^ 1 % 32 * 2 ^ 15
        + 0 * 2 ^ 10 + 0 * 2 ^ 5 + 0) / 2 ^ 24 % 256 = b1 := by omega
    have hbyte2 : (b0 / 2 ^ 3 % 32 * 2 ^ 35 + (b0 * 2 ^ 8 + b1) / 2 ^ 6 % 32 * 2 ^ 30
        + (b0 * 2 ^ 8 + b1) / 2 ^ 1 % 32 * 2 ^ 25
        + (b0 * 2 ^ 16 + b1 * 2 ^ 8 + b2) / 2 ^ 4 % 32 * 2 ^ 20
        + (b0 * 2 ^ 16 + b1 * 2 ^ 8 + b2) * 2 ^ 1 % 32 * 2 ^ 15
        + 0 * 2 ^ 10 + 0 * 2 ^ 5 + 0) / 2 ^ 16 % 256 = b2 := by omega
    rw [List.append_nil, hbyte0, hbyte1, hbyte2]
  | case5 b0 b1 b2 b3 =>
    exact absurd rfl hlen
  | case6 b0 b1 b2 b3 b4 rest ih =>
    have hb0 : b0 < 256 := h b0 (by simp)
    have hb1 : b1 < 256 := h b1 (by simp)
    have hb2 : b2 < 256 := h b2 (by simp)
    have hb3 : b3 < 256 := h b3 (by simp)
    have hb4 : b4 < 256 := h b4 (by simp)
    have hrest : ∀ b ∈ rest, b < 256 := fun x hx => h x (by simp [hx])
    have hlenr : rest.length % 5 ≠ 4 := by
      simp only [List.length_cons] at hlen
      omega
    have hih := ih hrest hlenr
    show b32groups (padInput 8 (b32loop (b0 :: b1 :: b2 :: b3 :: b4 :: rest) 0 0)) = _
    rw [b32loop_block5 b0 b1 b2 b3 b4 rest hb0 hb1 hb2 hb3 hb4]
    have hcong : b32loop rest
        ((b0 * 2 ^ 32 + b1 * 2 ^ 24 + b2 * 2 ^ 16 + b3 * 2 ^ 8 + b4) % 2 ^ 32) 0
        = b32loop rest 0 0 :=
      b32loop_congr rest _ 0 0 (by omega) (by simp [Nat.mod_one])
    rw [hcong, padInput8_cons8]
    have hg := b32group_yield_full _ _ _ _ _ _ _ _
      ((b0 * 2 ^ 32 + b1 * 2 ^ 24 + b2 * 2 ^ 16 + b3 * 2 ^ 8 + b4) / 2 ^ 35 % 32)
      ((b0 * 2 ^ 32 + b1 * 2 ^ 24 + b2 * 2 ^ 16 + b3 * 2 ^ 8 + b4) / 2 ^ 30 % 32)
      ((b0 * 2 ^ 32 + b1 * 2 ^ 24 + b2 * 2 ^ 16 + b3 * 2 ^ 8 + b4) / 2 ^ 25 % 32)
      ((b0 * 2 ^ 32 + b1 * 2 ^ 24 + b2 * 2 ^ 16 + b3 * 2 ^ 8 + b4) / 2 ^ 20 % 32)
      ((b0 * 2 ^ 32 + b1 * 2 ^ 24 + b2 * 2 ^ 16 + b3 * 2 ^ 8 + b4) / 2 ^ 15 % 32)
      ((b0 * 2 ^ 32 + b1 * 2 ^ 24 + b2 * 2 ^ 16 + b3 * 2 ^ 8 + b4) / 2 ^ 10 % 32)
      ((b0 * 2 ^ 32 + b1 * 2 ^ 24 + b2 * 2 ^ 16 + b3 * 2 ^ 8 + b4) / 2 ^ 5 % 32)
      ((b0 * 2 ^ 32 + b1 * 2 ^ 24 + b2 * 2 ^ 16 + b3 * 2 ^ 8 + b4) % 32)
      (find32_sym _ (by omega)) (find32_sym _ (by omega)) (find32_sym _ (by omega))
      (find32_sym _ (by omega)) (find32_sym _ (by omega)) (find32_sym _ (by omega))
      (find32_sym _ (by omega)) (find32_sym _ (by omega))
    have hc := b32groups_cons_ok _ _ _ _ _ _ _ _ (padInput 8 (b32loop rest 0 0)) _ rest hg hih
    rw [hc]
    rw [b32digits_val (b0 * 2 ^ 32 + b1 * 2 ^ 24 + b2 * 2 ^ 16 + b3 * 2 ^ 8 + b4) (by omega)]
    have e0 : (b0 * 2 ^ 32 + b1 * 2 ^ 24 + b2 * 2 ^ 16 + b3 * 2 ^ 8 + b4) / 2 ^ 32 % 256
        = b0 := by omega
    have e1 : (b0 * 2 ^ 32 + b1 * 2 ^ 24 + b2 * 2 ^ 16 + b3 * 2 ^ 8 + b4) / 2 ^ 24 % 256
        = b1 := by omega
    have e2 : (b0 * 2 ^ 32 + b1 * 2 ^ 24 + b2 * 2 ^ 16 + b3 * 2 ^ 8 + b4) / 2 ^ 16 % 256
        = b2 := by omega
    have e3 : (b0 * 2 ^ 32 + b1 * 2 ^ 24 + b2 * 2 ^ 16 + b3 * 2 ^ 8 + b4) / 2 ^ 8 % 256
        = b3 := by omega
    have e4 : (b0 * 2 ^ 32 + b1 * 2 ^ 24 + b2 * 2 ^ 16 + b3 * 2 ^ 8 + b4) % 256
        = b4 := by omega
    rw [e0, e1, e2, e3, e4]
    rfl

theorem base32_roundtrip (P : List Nat) (h : ∀ b ∈ P, b < 256)
    (hlen : P.length % 5 ≠ 4) :
    base32_decode (base32_encode P) = .ok P :=
  b32groups_encode P h hlen


theorem base85_strchr_sym : ∀ i < 85, base85_strchr (sym base85_table i) = some i := by
  decide

theorem base85_encode_mem_not_ws (P : List Nat) :
    ∀ c ∈ base85_encode P, isWS c = false := by
  have hblock : ∀ (v : Nat) (c : Char), c ∈ base85_block v → isWS c = false := by
    intro v c hc
    simp only [base85_block, List.mem_cons, List.not_mem_nil, or_false] at hc
    rcases hc with rfl | rfl | rfl | rfl | rfl
    · exact sym85_not_ws _ (Nat.mod_lt _ (by decide))
    · exact sym85_not_ws _ (Nat.mod_lt _ (by decide))
    · exact sym85_not_ws _ (Nat.mod_lt _ (by decide))
    · exact sym85_not_ws _ (Nat.mod_lt _ (by decide))
    · exact sym85_not_ws _ (Nat.mod_lt _ (by decide))
  induction P using base85_encode.induct with
  | case1 => intro c hc; simp [base85_encode] at hc
  | case2 b0 =>
    intro c hc
    exact hblock _ c hc
  | case3 b0 b1 =>
    intro c hc
    exact hblock _ c hc
  | case4 b0 b1 b2 =>
    intro c hc
    exact hblock _ c hc
  | case5 b0 b1 b2 b3 rest ih =>
    intro c hc
    rcases List.mem_append.mp hc with h | h
    · exact hblock _ c h
    · exact ih c h

theorem base85_encode_length (P : List Nat) :
    (base85_encode P).length = 5 * ((P.length + 3) / 4) := by
  induction P using base85_encode.induct with
  | case1 => rfl
  | case2 b0 => simp [base85_encode, base85_block]
  | case3 b0 b1 => simp [base85_encode, base85_block]
  | case4 b0 b1 b2 => simp [base85_encode, base85_block]
  | case5 b0 b1 b2 b3 rest ih =>
    show (base85_block _ ++ base85_encode rest).length = _
    rw [List.length_append, ih]
    simp only [base85_block, List.length_cons, List.length_nil]
    omega

theorem bytes_of_be32 (b0 b1 b2 b3 : Nat) (h0 : b0 < 256) (h1 : b1 < 256)
    (h2 : b2 < 256) (h3 : b3 < 256) :
    (b0 * 2 ^ 24 + b1 * 2 ^ 16 + b2 * 2 ^ 8 + b3) / 2 ^ 24 % 256 = b0
    ∧ (b0 * 2 ^ 24 + b1 * 2 ^ 16 + b2 * 2 ^ 8 + b3) / 2 ^ 16 % 256 = b1
    ∧ (b0 * 2 ^ 24 + b1 * 2 ^ 16 + b2 * 2 ^ 8 + b3) / 2 ^ 8 % 256 = b2
    ∧ (b0 * 2 ^ 24 + b1 * 2 ^ 16 + b2 * 2 ^ 8 + b3) % 256 = b3 := by
  refine ⟨?_, ?_, ?_, ?_⟩ <;> omega

theorem digits85_reconstruct (V : Nat) (hV : V < 85 ^ 5) :
    (((V / 85 ^ 4 % 85 * 85 + V / 85 ^ 3 % 85) * 85 + V / 85 ^ 2 % 85) * 85
      + V / 85 % 85) * 85 + V % 85 = V := by
  have htop : V / 85 ^ 4 % 85 = V / 85 ^ 4 := Nat.mod_eq_of_lt (by omega)
  have h4 : V / 85 ^ 4 * 85 + V / 85 ^ 3 % 85 = V / 85 ^ 3 := by
    have hd := Nat.div_add_mod (V / 85 ^ 3) 85
    have hdd : V / 85 ^ 3 / 85 = V / 85 ^ 4 := by
      rw [Nat.div_div_eq_div_mul]
      norm_num
    omega
  have h3 : V / 85 ^ 3 * 85 + V / 85 ^ 2 % 85 = V / 85 ^ 2 := by
    have hd := Nat.div_add_mod (V / 85 ^ 2) 85
    have hdd : V / 85 ^ 2 / 85 = V / 85 ^ 3 := by
      rw [Nat.div_div_eq_div_mul]
      norm_num
    omega
  have h2 : V / 85 ^ 2 * 85 + V / 85 % 85 = V / 85 := by
    have hd := Nat.div_add_mod (V / 85) 85
    have hdd : V / 85 / 85 = V / 85 ^ 2 := by
      rw [Nat.div_div_eq_div_mul]
      norm_num
    omega
  have h1 : V / 85 * 85 + V % 85 = V := by
    have := Nat.div_add_mod V 85
    omega
  rw [htop, h4, h3, h2, h1]

theorem b85blocks_encode (P : List Nat) (h : ∀ b ∈ P, b < 256)
    (hlen : P.length % 4 = 0) :
    b85blocks (base85_encode P) = .ok P := by
  induction P using base85_encode.induct with
  | case1 => rfl
  | case2 b0 => simp at hlen
  | case3 b0 b1 => simp at hlen
  | case4 b0 b1 b2 => simp at hlen
  | case5 b0 b1 b2 b3 rest ih =>
    have hb0 : b0 < 256 := h b0 (by simp)
    have hb1 : b1 < 256 := h b1 (by simp)
    have hb2 : b2 < 256 := h b2 (by simp)
    have hb3 : b3 < 256 := h b3 (by simp)
    have hrest := ih (fun x hx => h x (by simp [hx]))
      (by simp only [List.length_cons] at hlen; omega)
    show b85blocks (base85_block (b0 * 2 ^ 24 + b1 * 2 ^ 16 + b2 * 2 ^ 8 + b3)
      ++ base85_encode rest) = _
    rw [show base85_block (b0 * 2 ^ 24 + b1 * 2 ^ 16 + b2 * 2 ^ 8 + b3)
        ++ base85_encode rest
      = sym base85_table ((b0 * 2 ^ 24 + b1 * 2 ^ 16 + b2 * 2 ^ 8 + b3) / 85 ^ 4 % 85)
        :: sym base85_table ((b0 * 2 ^ 24 + b1 * 2 ^ 16 + b2 * 2 ^ 8 + b3) / 85 ^ 3 % 85)
        :: sym base85_table ((b0 * 2 ^ 24 + b1 * 2 ^ 16 + b2 * 2 ^ 8 + b3) / 85 ^ 2 % 85)
        :: sym base85_table ((b0 * 2 ^ 24 + b1 * 2 ^ 16 + b2 * 2 ^ 8 + b3) / 85 % 85)
        :: sym base85_table ((b0 * 2 ^ 24 + b1 * 2 ^ 16 + b2 * 2 ^ 8 + b3) % 85)
        :: base85_encode rest from rfl]
    rw [b85block_step _ _ _ _ _
      ((b0 * 2 ^ 24 + b1 * 2 ^ 16 + b2 * 2 ^ 8 + b3) / 85 ^ 4 % 85)
      ((b0 * 2 ^ 24 + b1 * 2 ^ 16 + b2 * 2 ^ 8 + b3) / 85 ^ 3 % 85)
      ((b0 * 2 ^ 24 + b1 * 2 ^ 16 + b2 * 2 ^ 8 + b3) / 85 ^ 2 % 85)
      ((b0 * 2 ^ 24 + b1 * 2 ^ 16 + b2 * 2 ^ 8 + b3) / 85 % 85)
      ((b0 * 2 ^ 24 + b1 * 2 ^ 16 + b2 * 2 ^ 8 + b3) % 85)
      _ rest
      (base85_strchr_sym _ (Nat.mod_lt _ (by decide)))
      (base85_strchr_sym _ (Nat.mod_lt _ (by decide)))
      (base85_strchr_sym _ (Nat.mod_lt _ (by decide)))
      (base85_strchr_sym _ (Nat.mod_lt _ (by decide)))
      (base85_strchr_sym _ (Nat.mod_lt _ (by decide)))
      hrest]
    have hv := digits85_reconstruct (b0 * 2 ^ 24 + b1 * 2 ^ 16 + b2 * 2 ^ 8 + b3)
      (by omega)
    rw [hv]
    obtain ⟨h0, h1, h2, h3⟩ := bytes_of_be32 b0 b1 b2 b3 hb0 hb1 hb2 hb3
    rw [h0, h1, h2, h3]
    rfl

theorem base85_decode_of_ne_nil (input : List Char) (hne : input ≠ []) :
    base85_decode input
      = (if (input.filter (fun c => !(isWS c))).length % 5 ≠ 0 then .error .lengthError
         else b85blocks (input.filter (fun c => !(isWS c)))) := by
  unfold base85_decode
  rw [if_neg (by simpa [List.length_eq_zero] using hne)]

theorem base85_roundtrip (P : List Nat) (h : ∀ b ∈ P, b < 256) (hne : P ≠ [])
    (hlen : P.length % 4 = 0) : base85_decode (base85_encode P) = .ok P := by
  have hlenpos : 0 < P.length := List.length_pos.mpr hne
  have hence : base85_encode P ≠ [] := by
    intro hcontra
    have := base85_encode_length P
    rw [hcontra] at this
    simp at this
    omega
  have hfilter : (base85_encode P).filter (fun c => !(isWS c)) = base85_encode P := by
    rw [List.filter_eq_self]
    intro c hc
    simp [base85_encode_mem_not_ws P c hc]
  rw [base85_decode_of_ne_nil _ hence]
  simp only [hfilter]
  rw [if_neg (by rw [base85_encode_length]; omega)]
  exact b85blocks_encode P h hlen

theorem foldl_beVal_ge (mult : Nat) (hm : 1 ≤ mult) (items : List Nat) :
    ∀ v, v ≤ items.foldl (fun v b => mult * v + b) v := by
  induction items with
  | nil => intro v; exact Nat.le_refl v
  | cons b rest ih =>
    intro v
    calc v ≤ mult * v + b := by nlinarith
      _ ≤ _ := ih (mult * v + b)

theorem beVal_head_pos (mult : Nat) (hm : 1 ≤ mult) (b : Nat) (rest : List Nat)
    (hb : b ≠ 0) : 0 < beVal mult (b :: rest) := by
  unfold beVal
  rw [List.foldl_cons]
  calc 0 < mult * 0 + b := by omega
    _ ≤ _ := foldl_beVal_ge mult hm rest _

theorem go58_map (D : List Nat) (hD : ∀ d ∈ D, d < 58) : ∀ acc : List Nat,
    go58 (D.map (sym base58_table)) acc
      = .ok (D.foldl (fun ds d => carryMulAdd 58 256 d ds) acc) := by
  induction D with
  | nil => intro acc; rfl
  | cons d D ih =>
    intro acc
    have hd : d < 58 := hD d (by simp)
    show go58 (sym base58_table d :: D.map (sym base58_table)) acc = _
    rw [go58, find58_sym d hd]
    exact ih (fun x hx => hD x (by simp [hx])) _

/-- Base58 round trip for a payload whose first byte is nonzero. -/
theorem base58_roundtrip_head (b : Nat) (rest : List Nat)
    (h : ∀ x ∈ b :: rest, x < 256) (hb : b ≠ 0) :
    base58_decode (base58_encode (b :: rest)) = .ok (b :: rest) := by
  set P : List Nat := b :: rest with hP
  set N : Nat := beVal 256 P with hN
  have hNpos : 0 < N := beVal_head_pos 256 (by omega) b rest hb
  -- the encoder output
  have henc : base58_encode P
      = (Nat.digits 58 N).reverse.map (sym base58_table) := by
    unfold base58_encode
    have hz : (P.takeWhile (· == 0)).length = 0 := by
      rw [hP]
      simp [List.takeWhile_cons, hb]
    rw [hz]
    simp only [List.replicate_zero, List.drop_zero]
    rw [bigLoop_nil_digits 256 58 (by omega) (by omega) P, ← hN]
  rw [henc]
  -- the decoder: no leading '1'
  have hdigne : Nat.digits 58 N ≠ [] := Nat.digits_ne_nil_iff_ne_zero.mpr (by omega)
  have hhead : ∀ s0 S', (Nat.digits 58 N).reverse.map (sym base58_table) = s0 :: S' →
      (s0 == sym base58_table 0) = false := by
    intro s0 S' hcons
    have hh : ((Nat.digits 58 N).reverse.map (sym base58_table)).head? = some s0 := by
      rw [hcons]; rfl
    rw [List.head?_map, List.head?_reverse] at hh
    have hlast : (Nat.digits 58 N).getLast? = some ((Nat.digits 58 N).getLast hdigne) :=
      List.getLast?_eq_getLast _ hdigne
    rw [hlast] at hh
    have hs0 : s0 = sym base58_table ((Nat.digits 58 N).getLast hdigne) := by
      simpa using hh.symm
    have hlt : (Nat.digits 58 N).getLast hdigne < 58 :=
      Nat.digits_lt_base (by omega) (List.getLast_mem hdigne)
    have hne0 : (Nat.digits 58 N).getLast hdigne ≠ 0 :=
      Nat.getLast_digit_ne_zero 58 (by omega)
    have : sym base58_table ((Nat.digits 58 N).getLast hdigne) ≠ '1' :=
      sym58_ne_one _ hlt hne0
    rw [hs0]
    simpa [show sym base58_table 0 = '1' from rfl] using this
  unfold base58_decode
  rcases hS : (Nat.digits 58 N).reverse.map (sym base58_table) with _ | ⟨s0, S'⟩
  · exact absurd (by simpa using hS) hdigne
  · have hzc : ((s0 :: S').takeWhile (· == sym base58_table 0)).length = 0 := by
      rw [List.takeWhile_cons, hhead s0 S' hS]
      rfl
    rw [hzc]
    simp only [List.replicate_zero, List.drop_zero, List.nil_append]
    rw [← hS]
    rw [go58_map _ (fun d hd => Nat.digits_lt_base (by omega)
      (List.mem_reverse.mp hd))]
    rw [show ((Nat.digits 58 N).reverse.foldl (fun ds d => carryMulAdd 58 256 d ds) []
        : List Nat) = bigLoop 58 256 [] (Nat.digits 58 N).reverse from rfl,
      bigLoop_nil_digits 58 256 (by omega) (by omega)]
    rw [beVal_reverse 58 (Nat.digits 58 N), Nat.ofDigits_digits]
    have hPrev : Nat.digits 256 N = P.reverse := by
      have hval : (N : Nat) = Nat.ofDigits 256 P.reverse := by
        rw [hN, ← beVal_reverse 256 P.reverse, List.reverse_reverse]
      rw [hval]
      apply Nat.digits_ofDigits 256 (by omega)
      · intro x hx
        exact h x (List.mem_reverse.mp hx)
      · intro hne
        rw [show P.reverse.getLast hne = ((b :: rest).reverse).getLast (by simp)
            from by simp [hP]]
        rw [List.getLast_reverse]
        exact hb
    rw [hPrev]
    simp [Except.map]

/-- Base58 round trip for an all-zero payload. -/
theorem base58_roundtrip_zeros (n : Nat) :
    base58_decode (base58_encode (List.replicate n 0)) = .ok (List.replicate n 0) := by
  have htw : (List.replicate n (0 : Nat)).takeWhile (· == 0) = List.replicate n 0 := by
    induction n with
    | zero => rfl
    | succ n ih => simp [List.replicate_succ, List.takeWhile_cons, ih]
  have htw1 : (List.replicate n '1').takeWhile (· == sym base58_table 0)
      = List.replicate n '1' := by
    induction n with
    | zero => rfl
    | succ n ih =>
      simp [List.replicate_succ, List.takeWhile_cons, ih,
        show sym base58_table 0 = '1' from rfl]
  have hdropNat : List.drop n (List.replicate n (0 : Nat)) = [] := by simp
  have hdropChar : List.drop n (List.replicate n '1') = [] := by simp
  have henc : base58_encode (List.replicate n 0) = List.replicate n '1' := by
    simp only [base58_encode, htw, List.length_replicate, hdropNat]
    rw [show bigLoop 256 58 (List.replicate n 0) [] = List.replicate n 0 from rfl,
      List.reverse_replicate, List.map_replicate]
    rfl
  rw [henc]
  simp only [base58_decode, htw1, List.length_replicate, hdropChar]
  rw [show go58 [] [] = .ok [] from rfl]
  simp [Except.map, List.reverse_replicate]

/-- Base58 round trip: holds whenever the payload has no leading zero byte,
or consists entirely of zero bytes. -/
theorem base58_roundtrip (P : List Nat) (h : ∀ x ∈ P, x < 256)
    (hz : P.head? ≠ some 0 ∨ ∀ x ∈ P, x = 0) :
    base58_decode (base58_encode P) = .ok P := by
  rcases hz with hhead | hall
  · cases P with
    | nil => rfl
    | cons b rest =>
      have hb : b ≠ 0 := by
        intro hcontra
        subst hcontra
        exact hhead rfl
      exact base58_roundtrip_head b rest h hb
  · rw [List.eq_replicate_of_mem hall]
    exact base58_roundtrip_zeros P.length

theorem fold62_digits : ∀ (D : List Nat) (n : Nat),
    D.foldl (fun ds d => carryMulAdd 1 256 d (carryMulAdd 62 256 0 ds))
      (padTo 1 (Nat.digits 256 n))
      = padTo 1 (Nat.digits 256 (D.foldl (fun v d => 62 * v + d) n)) := by
  intro D
  induction D with
  | nil => intro n; rfl
  | cons d D ih =>
    intro n
    rw [List.foldl_cons, List.foldl_cons]
    have hstep : carryMulAdd 1 256 d (carryMulAdd 62 256 0 (padTo 1 (Nat.digits 256 n)))
        = padTo 1 (Nat.digits 256 (62 * n + d)) := by
      rw [carryMulAdd_padTo 62 256 0 1 _ (by omega),
        carryMulAdd_padTo 1 256 d 1 _ (by omega)]
      rw [carryMulAdd_eq_digits 62 256 0 _ (by omega) (by omega)
        (fun x hx => Nat.digits_lt_base (by omega) hx) (noTrailZero_digits _ _),
        Nat.ofDigits_digits]
      rw [carryMulAdd_eq_digits 1 256 d _ (by omega) (by omega)
        (fun x hx => Nat.digits_lt_base (by omega) hx) (noTrailZero_digits _ _),
        Nat.ofDigits_digits]
      have : d + 1 * (0 + 62 * n) = 62 * n + d := by ring
      rw [this]
    rw [hstep, ih]

theorem fold62_map (D : List Nat) (hD : ∀ d ∈ D, d < 62) : ∀ acc : List Nat,
    (D.map (sym base62_table)).foldl
      (fun ds c => carryMulAdd 1 256 ((find_index c base62_table).getD 0)
        (carryMulAdd 62 256 0 ds)) acc
      = D.foldl (fun ds d => carryMulAdd 1 256 d (carryMulAdd 62 256 0 ds)) acc := by
  induction D with
  | nil => intro acc; rfl
  | cons d D ih =>
    intro acc
    rw [List.map_cons, List.foldl_cons, List.foldl_cons]
    rw [show ((find_index (sym base62_table d) base62_table).getD 0) = d from by
      rw [find62_sym d (hD d (by simp))]; rfl]
    exact ih (fun x hx => hD x (by simp [hx])) _

/-- Base62 round trip for a nonempty payload whose first byte is nonzero. -/
theorem base62_roundtrip_head (b : Nat) (rest : List Nat)
    (h : ∀ x ∈ b :: rest, x < 256) (hb : b ≠ 0) :
    base62_decode (base62_encode (b :: rest)) = .ok (b :: rest) := by
  set P : List Nat := b :: rest with hP
  set N : Nat := beVal 256 P with hN
  have hNpos : 0 < N := beVal_head_pos 256 (by omega) b rest hb
  have henc : base62_encode P
      = (Nat.digits 62 N).reverse.map (sym base62_table) := by
    unfold base62_encode
    rw [bigLoop_nil_digits 256 62 (by omega) (by omega) P, ← hN]
  have hdigne : Nat.digits 62 N ≠ [] := Nat.digits_ne_nil_iff_ne_zero.mpr (by omega)
  have hD : ∀ d ∈ (Nat.digits 62 N).reverse, d < 62 :=
    fun d hd => Nat.digits_lt_base (by omega) (List.mem_reverse.mp hd)
  rw [henc]
  unfold base62_decode
  rw [if_neg (by
    simp only [List.length_map, List.length_reverse]
    intro hcontra
    exact hdigne (List.length_eq_zero.mp hcontra))]
  rw [if_neg (by
    intro hcontra
    rw [List.any_eq_true] at hcontra
    obtain ⟨c, hc, hfind⟩ := hcontra
    obtain ⟨d, hd, rfl⟩ := List.mem_map.mp hc
    rw [find62_sym d (hD d hd)] at hfind
    simp at hfind)]
  rw [fold62_map _ hD]
  rw [show ([0] : List Nat) = padTo 1 (Nat.digits 256 0) from by simp [padTo]]
  rw [fold62_digits]
  have hfold : ((Nat.digits 62 N).reverse.foldl (fun v d => 62 * v + d) 0) = N := by
    rw [show ((Nat.digits 62 N).reverse.foldl (fun v d => 62 * v + d) 0)
        = beVal 62 (Nat.digits 62 N).reverse from rfl]
    rw [beVal_reverse 62 (Nat.digits 62 N), Nat.ofDigits_digits]
  rw [hfold]
  have hpad : padTo 1 (Nat.digits 256 N) = Nat.digits 256 N := by
    apply padTo_of_le
    have hne2 : Nat.digits 256 N ≠ [] := Nat.digits_ne_nil_iff_ne_zero.mpr (by omega)
    cases hcase : Nat.digits 256 N with
    | nil => exact absurd hcase hne2
    | cons x xs => simp
  rw [hpad]
  have hPrev : Nat.digits 256 N = P.reverse := by
    have hval : (N : Nat) = Nat.ofDigits 256 P.reverse := by
      rw [hN, ← beVal_reverse 256 P.reverse, List.reverse_reverse]
    rw [hval]
    apply Nat.digits_ofDigits 256 (by omega)
    · intro x hx
      exact h x (List.mem_reverse.mp hx)
    · intro hne
      rw [show P.reverse.getLast hne = ((b :: rest).reverse).getLast (by simp)
          from by simp [hP]]
      rw [List.getLast_reverse]
      exact hb
  rw [hPrev, List.reverse_reverse]

/-! ### Claim C1: the universal round-trip law -/

/-- Adapter for `base62_roundtrip_head`: any nonempty payload whose first
byte is nonzero round-trips through Base62. -/
theorem base62_roundtrip (P : List Nat) (h : ∀ x ∈ P, x < 256)
    (hne : P ≠ []) (hhead : P.head? ≠ some 0) :
    base62_decode (base62_encode P) = .ok P := by
  cases P with
  | nil => exact absurd rfl hne
  | cons b rest =>
    apply base62_roundtrip_head b rest h
    intro hb0
    apply hhead
    rw [hb0]
    rfl

/-- **C1** (corrected).  The spec's universal round-trip law
`decode(F, encode(F, P)) == P` does not hold for every format and payload.
It holds unconditionally (for byte-valued payloads) for Base16 and Base64;
for Base32 it holds exactly when the payload length is not `≡ 4 (mod 5)`
(the final 4-byte tail trips the misplaced pad check at offset 6 and yields
an extra trailing zero byte); for Base58 it holds when the payload has no
leading zero byte or is all zeros (leading-zero prefixes are first mangled by
the encoder's index quirk, and the decoder moves the zero bytes to the end);
for Base62 it holds when the payload is nonempty with a nonzero first byte
(leading zeros are dropped and the empty string fails to decode); for Base85
it holds when the payload is nonempty and its length is a multiple of 4
(short final blocks are zero-extended, and the empty string fails to
decode). -/
theorem roundtrip_amended :
    (∀ P : List Nat, (∀ b ∈ P, b < 256) →
      base16_decode (base16_encode P) = .ok P)
    ∧ (∀ P : List Nat, (∀ b ∈ P, b < 256) → P.length % 5 ≠ 4 →
      base32_decode (base32_encode P) = .ok P)
    ∧ (∀ P : List Nat, (∀ b ∈ P, b < 256) →
      (P.head? ≠ some 0 ∨ ∀ x ∈ P, x = 0) →
      base58_decode (base58_encode P) = .ok P)
    ∧ (∀ P : List Nat, (∀ b ∈ P, b < 256) → P ≠ [] → P.head? ≠ some 0 →
      base62_decode (base62_encode P) = .ok P)
    ∧ (∀ P : List Nat, (∀ b ∈ P, b < 256) →
      base64_decode (base64_encode P) = .ok P)
    ∧ (∀ P : List Nat, (∀ b ∈ P, b < 256) → P ≠ [] → P.length % 4 = 0 →
      base85_decode (base85_encode P) = .ok P) :=
  ⟨base16_roundtrip, base32_roundtrip, base58_roundtrip,
   base62_roundtrip, base64_roundtrip, base85_roundtrip⟩

theorem roundtrip_amended_witness :
    base16_decode (base16_encode [171, 205]) = .ok [171, 205]
    ∧ base32_decode (base32_encode [72, 101, 108, 108, 111])
        = .ok [72, 101, 108, 108, 111]
    ∧ base58_decode (base58_encode [1, 0]) = .ok [1, 0]
    ∧ base62_decode (base62_encode [1, 0]) = .ok [1, 0]
    ∧ base64_decode (base64_encode [77, 97, 110]) = .ok [77, 97, 110]
    ∧ base85_decode (base85_encode [0, 0, 0, 1]) = .ok [0, 0, 0, 1] :=
  ⟨roundtrip_amended.1 [171, 205] (by decide),
   roundtrip_amended.2.1 [72, 101, 108, 108, 111] (by decide) (by decide),
   roundtrip_amended.2.2.1 [1, 0] (by decide) (.inl (by decide)),
   roundtrip_amended.2.2.2.1 [1, 0] (by decide) (by decide) (by decide),
   roundtrip_amended.2.2.2.2.1 [77, 97, 110] (by decide),
   roundtrip_amended.2.2.2.2.2 [0, 0, 0, 1] (by decide) (by decide) (by decide)⟩

/-- The original C1 claim is false: one failing payload per format outside
the amended conditions (Base85 with length not a multiple of 4, Base32 with
length `≡ 4 (mod 5)`, Base58 with a leading zero byte, Base62 with a zero
byte; Base16 and Base64 never fail). -/
theorem roundtrip_counterexample :
    base85_decode (base85_encode [1]) ≠ .ok [1]
    ∧ base32_decode (base32_encode [72, 101, 108, 108]) ≠ .ok [72, 101, 108, 108]
    ∧ base58_decode (base58_encode [0, 1]) ≠ .ok [0, 1]
    ∧ base62_decode (base62_encode [0]) ≠ .ok [0] := by
  refine ⟨fun hEq => ?_, fun hEq => ?_, fun hEq => ?_, fun hEq => ?_⟩
  · rw [show base85_decode (base85_encode [1]) = .ok [1, 0, 0, 0] from rfl] at hEq
    exact absurd (Except.ok.inj hEq) (by decide)
  · rw [show base32_decode (base32_encode [72, 101, 108, 108])
        = .ok [72, 101, 108, 108, 0] from rfl] at hEq
    exact absurd (Except.ok.inj hEq) (by decide)
  · rw [show base58_decode (base58_encode [0, 1]) = .ok [1] from rfl] at hEq
    exact absurd (Except.ok.inj hEq) (by decide)
  · rw [show base62_decode (base62_encode [0]) = .error .emptyInput from rfl] at hEq
    exact Except.noConfusion hEq
